import Mathlib

/-!
# Verification of the field-level encryption layer

A shallow embedding of the encryption/decryption proxy layer of the
citizen-services portal: the Fortanix DSM client
(`backend/services/fortanixService.js`), the field codec
(`services/encryptionService.js`) and the encrypted database services
(`backend/database/encryptedDb.js`).

JavaScript values that flow through the layer are modelled by `JsValue`
(strings, numbers, booleans, null); JS objects by association lists
(`Record`); thrown exceptions by `Except`; the ambient environment
(clock, filesystem, network transport) by an explicit `NetEnv` record
whose transport fields act as oracles.  Every service operation returns
an `OpResult`: its JS return value or thrown error, the mutated service
state, and counters for network invocations and `authenticate()`
invocations, so that isolation and session-reuse properties can be
stated as facts about the counters.
-/

set_option autoImplicit false

namespace CitizenServices

/-- A JavaScript value as it appears in the records handled by the
encryption layer: a string, a number, a boolean, or `null`.  Absent
object properties (`undefined`) are modelled by `Option.none` at the
lookup level rather than by a variant. -/
inductive JsValue : Type where
  | vstr (s : String)
  | vnum (n : Int)
  | vbool (b : Bool)
  | vnull
deriving Repr, DecidableEq

/-- JavaScript truthiness of a value: the empty string, `0`, `false`
and `null` are falsy, everything else is truthy. -/
def JsValue.truthy : JsValue → Bool
  | .vstr s => s != ""
  | .vnum n => n != 0
  | .vbool b => b
  | .vnull => false

/-- The string content of a value, as used when a record field is
handed to `encryptData`/`decryptData` (the codec only does this for
truthy values, which in the data model are non-empty strings). -/
def JsValue.asStr : JsValue → String
  | .vstr s => s
  | .vnum n => toString n
  | .vbool b => toString b
  | .vnull => "null"

/-- JavaScript truthiness of a possibly-absent string-valued field
(`undefined` and `null` map to `none`). -/
def jsTruthy : Option String → Bool
  | none => false
  | some s => s != ""

/-- A JS object, modelled as an association list from property names to
values.  Property order is observable in JS but irrelevant to every
claim; lookups read the first binding. -/
def Record : Type := List (String × JsValue)

instance : DecidableEq Record := by
  unfold Record; infer_instance

instance : Append Record := ⟨List.append⟩

/-- Property read `r[k]`; `none` models `undefined`. -/
def rget : Record → String → Option JsValue
  | [], _ => none
  | (k', v) :: rest, k => if k' = k then some v else rget rest k

/-- Property write `r[k] = v`: overwrite the existing binding, or append
a new one. -/
def rset : Record → String → JsValue → Record
  | [], k, v => [(k, v)]
  | (k', v') :: rest, k, v =>
    if k' = k then (k, v) :: rest else (k', v') :: rset rest k v

/-- Property delete `delete r[k]`. -/
def rdel : Record → String → Record
  | [], _ => []
  | (k', v) :: rest, k =>
    if k' = k then rdel rest k else (k', v) :: rdel rest k

/-- Does the record have property `k` (with any value, `null` included)? -/
def rhas (r : Record) (k : String) : Bool :=
  (rget r k).isSome

/-- The value of `r[k]` coerced to the argument passed to the HSM
client (absent treated as the empty string; only applied to present
truthy values in the code paths under study). -/
def rgetStr (r : Record) (k : String) : String :=
  match rget r k with
  | some v => v.asStr
  | none => ""

/-- Truthiness of a record field (`if (record[field])`): absent
properties are falsy. -/
def fieldTruthy (r : Record) (k : String) : Bool :=
  match rget r k with
  | some v => v.truthy
  | none => false

/-! ## UTF-8 and base64

`Buffer.from(s, 'utf8')` and `.toString('base64')` from the demo-mode
cipher construction and the real-mode request payloads. -/

/-- UTF-8 encoding of one code point (the byte sequence
`Buffer.from` produces for it). -/
def utf8EncodeChar (c : Char) : List Nat :=
  let n := c.toNat
  if n < 128 then [n]
  else if n < 2048 then [192 + n / 64, 128 + n % 64]
  else if n < 65536 then [224 + n / 4096, 128 + (n / 64) % 64, 128 + n % 64]
  else [240 + n / 262144, 128 + (n / 4096) % 64, 128 + (n / 64) % 64, 128 + n % 64]

/-- The UTF-8 bytes of a string, as `Buffer.from(s, 'utf8')`. -/
def utf8Bytes (s : String) : List Nat :=
  (s.toList.map utf8EncodeChar).flatten

/-- The standard base64 alphabet. -/
def b64Alphabet : List Char :=
  "ABCDEFGHIJKLMNOPQRSTUVWXYZabcdefghijklmnopqrstuvwxyz0123456789+/".toList

/-- The base64 digit for a sextet. -/
def b64Char (n : Nat) : Char :=
  b64Alphabet.getD n '?'

/-- Base64 encoding of a byte list with padding, as
`Buffer.toString('base64')`. -/
def base64Encode : List Nat → String
  | [] => ""
  | [a] =>
    String.mk [b64Char (a / 4), b64Char (a % 4 * 16), '=', '=']
  | [a, b] =>
    String.mk [b64Char (a / 4), b64Char (a % 4 * 16 + b / 16), b64Char (b % 16 * 4), '=']
  | a :: b :: c :: rest =>
    String.mk [b64Char (a / 4), b64Char (a % 4 * 16 + b / 16),
               b64Char (b % 16 * 4 + c / 64), b64Char (c % 64)]
      ++ base64Encode rest

/-- The sextet of a base64 digit. -/
def b64Val (c : Char) : Option Nat :=
  b64Alphabet.findIdx? (fun d => d == c)

/-- Reassemble bytes from decoded sextets (groups of four, with a
truncated trailing group from padding). -/
def base64DecodeChunks : List Nat → List Nat
  | a :: b :: c :: d :: rest =>
    (a * 4 + b / 16) :: (b % 16 * 16 + c / 4) :: (c % 4 * 64 + d) :: base64DecodeChunks rest
  | [a, b, c] => [a * 4 + b / 16, b % 16 * 16 + c / 4]
  | [a, b] => [a * 4 + b / 16]
  | _ => []

/-- Base64 decoding, as the lenient `Buffer.from(s, 'base64')`:
non-alphabet characters (padding included) are skipped. -/
def base64Decode (s : String) : List Nat :=
  base64DecodeChunks (s.toList.filterMap b64Val)

/-- UTF-8 decoding with explicit fuel (one unit per consumed byte);
malformed sequences decode to U+FFFD, approximating
`Buffer.toString('utf8')`.  Never evaluated by any proof: it only
appears in the real-mode decrypt path, whose response payload no claim
inspects. -/
def utf8DecodeAux : Nat → List Nat → List Char
  | 0, _ => []
  | _, [] => []
  | fuel + 1, b :: rest =>
    if b < 128 then Char.ofNat b :: utf8DecodeAux fuel rest
    else if 192 ≤ b ∧ b < 224 then
      match rest with
      | b2 :: rest2 =>
        Char.ofNat ((b - 192) * 64 + (b2 - 128)) :: utf8DecodeAux fuel rest2
      | [] => [Char.ofNat 65533]
    else if 224 ≤ b ∧ b < 240 then
      match rest with
      | b2 :: b3 :: rest3 =>
        Char.ofNat ((b - 224) * 4096 + (b2 - 128) * 64 + (b3 - 128)) :: utf8DecodeAux fuel rest3
      | _ => [Char.ofNat 65533]
    else if 240 ≤ b ∧ b < 248 then
      match rest with
      | b2 :: b3 :: b4 :: rest4 =>
        Char.ofNat ((b - 240) * 262144 + (b2 - 128) * 4096 + (b3 - 128) * 64 + (b4 - 128))
          :: utf8DecodeAux fuel rest4
      | _ => [Char.ofNat 65533]
    else Char.ofNat 65533 :: utf8DecodeAux fuel rest

/-- UTF-8 decoding of a byte list to a string. -/
def utf8Decode (bs : List Nat) : String :=
  String.mk (utf8DecodeAux (bs.length + 1) bs)

/-! ## JSON parsing

`decryptData` classifies its input with `JSON.parse` followed by a
truthiness check of the `cipher` and `iv` properties; `encryptData`
serialises envelopes with `JSON.stringify`.  `JsonVal` is the full
JSON value space (strings, numbers, booleans, null, objects, arrays),
and the parser implements the JSON grammar: strings with the standard
escapes and no raw control characters, numbers with the leading-zero
rule, optional fraction and optional exponent, and arbitrarily nested
objects and arrays (fuel-indexed recursion, with enough fuel that it
never runs out on a document of the given length).  Two documented
approximations, neither observable by the code paths under study,
which use parsed values only for truthiness and as opaque request
payload: a parsed number is represented by its signed mantissa digits
as an integer — fraction and exponent are validated but not applied,
which preserves zero-versus-non-zero except for floating-point
underflow (e.g. `1e-400`, which JS rounds to `0`); and a `\u` escape
outside the valid code-point range maps through the default character.
-/

/-- The `{` character (written via its code point). -/
def lbrace : Char := Char.ofNat 123

/-- The `}` character (written via its code point). -/
def rbrace : Char := Char.ofNat 125

/-- JSON insignificant whitespace. -/
def isJsonWs (c : Char) : Bool :=
  c == ' ' || c == '\t' || c == '\n' || c == '\r'

/-- Skip insignificant whitespace. -/
def skipWs (cs : List Char) : List Char :=
  cs.dropWhile isJsonWs

/-- The value of one hexadecimal digit. -/
def hexVal (c : Char) : Option Nat :=
  if '0' ≤ c ∧ c ≤ '9' then some (c.toNat - 48)
  else if 'a' ≤ c ∧ c ≤ 'f' then some (c.toNat - 97 + 10)
  else if 'A' ≤ c ∧ c ≤ 'F' then some (c.toNat - 65 + 10)
  else none

/-- A JSON value, as `JSON.parse` produces it.  Nested objects and
arrays are truthy in JS whatever their contents. -/
inductive JsonVal : Type where
  | jstr (s : String)
  | jnum (n : Int)
  | jbool (b : Bool)
  | jnull
  | jobj (members : List (String × JsonVal))
  | jarr (elems : List JsonVal)

/-- JavaScript truthiness of a parsed JSON value: `""`, `0`, `false`
and `null` are falsy; every object and array (empty ones included) is
truthy. -/
def JsonVal.truthy : JsonVal → Bool
  | .jstr s => s != ""
  | .jnum n => n != 0
  | .jbool b => b
  | .jnull => false
  | .jobj _ => true
  | .jarr _ => true

/-- Parse the body of a JSON string (the opening quote already
consumed), returning the decoded string and the rest of the input.
Raw control characters (code points below 32) are rejected, as
`JSON.parse` rejects them.  Fuel is one unit per consumed
character. -/
def parseStringBody : Nat → List Char → List Char → Option (String × List Char)
  | 0, _, _ => none
  | fuel + 1, acc, cs =>
    match cs with
    | [] => none
    | c :: rest =>
      if c == '"' then some (String.mk acc.reverse, rest)
      else if c == '\\' then
        match rest with
        | [] => none
        | e :: rest2 =>
          if e == '"' then parseStringBody fuel ('"' :: acc) rest2
          else if e == '\\' then parseStringBody fuel ('\\' :: acc) rest2
          else if e == '/' then parseStringBody fuel ('/' :: acc) rest2
          else if e == 'n' then parseStringBody fuel ('\n' :: acc) rest2
          else if e == 't' then parseStringBody fuel ('\t' :: acc) rest2
          else if e == 'r' then parseStringBody fuel ('\r' :: acc) rest2
          else if e == 'b' then parseStringBody fuel (Char.ofNat 8 :: acc) rest2
          else if e == 'f' then parseStringBody fuel (Char.ofNat 12 :: acc) rest2
          else if e == 'u' then
            match rest2 with
            | h1 :: h2 :: h3 :: h4 :: rest3 =>
              match hexVal h1, hexVal h2, hexVal h3, hexVal h4 with
              | some v1, some v2, some v3, some v4 =>
                parseStringBody fuel
                  (Char.ofNat (v1 * 4096 + v2 * 256 + v3 * 16 + v4) :: acc) rest3
              | _, _, _, _ => none
            | _ => none
          else none
      else if c.toNat < 32 then none
      else parseStringBody fuel (c :: acc) rest

/-- Decimal digit test. -/
def isDigitChar (c : Char) : Bool :=
  '0' ≤ c && c ≤ '9'

/-- Read a non-empty run of decimal digits as a natural number. -/
def parseDigits (cs : List Char) : Option (Nat × List Char) :=
  let digits := cs.takeWhile isDigitChar
  if digits.isEmpty then none
  else some (digits.foldl (fun n c => n * 10 + (c.toNat - 48)) 0, cs.dropWhile isDigitChar)

/-- The integer part of a JSON number: `0`, or a non-zero digit
followed by digits — a leading zero before further digits is a JSON
syntax error. -/
def parseJsonInt : List Char → Option (Nat × List Char)
  | [] => none
  | c :: rest =>
    if c == '0' then
      match rest with
      | d :: _ => if isDigitChar d then none else some (0, rest)
      | [] => some (0, rest)
    else if isDigitChar c then parseDigits (c :: rest)
    else none

/-- Parse a JSON number: optional minus, integer part (leading-zero
rule), optional `.digits` fraction, optional `(e|E)[+|-]digits`
exponent.  The result keeps the signed mantissa digits as an integer;
the fraction position and exponent are validated and discarded (see
the section comment). -/
def parseJsonNumber (cs : List Char) : Option (JsonVal × List Char) :=
  let (neg, cs1) :=
    match cs with
    | c :: rest => if c == '-' then (true, rest) else (false, cs)
    | [] => (false, cs)
  match parseJsonInt cs1 with
  | none => none
  | some (intPart, cs2) =>
    let fracStep : Option (Nat × List Char) :=
      match cs2 with
      | c :: rest =>
        if c == '.' then
          match parseDigits rest with
          | none => none
          | some (fracPart, cs3) =>
            some (intPart * 10 ^ (rest.takeWhile isDigitChar).length + fracPart, cs3)
        else some (intPart, cs2)
      | [] => some (intPart, cs2)
    match fracStep with
    | none => none
    | some (mantissa, cs3) =>
      let expStep : Option (List Char) :=
        match cs3 with
        | c :: rest =>
          if c == 'e' || c == 'E' then
            let rest2 :=
              match rest with
              | d :: rest3 => if d == '+' || d == '-' then rest3 else rest
              | [] => rest
            match parseDigits rest2 with
            | none => none
            | some (_, cs4) => some cs4
          else some cs3
        | [] => some cs3
      match expStep with
      | none => none
      | some cs4 =>
        some (JsonVal.jnum (if neg then -(mantissa : Int) else (mantissa : Int)), cs4)

/-- Parse the members of a non-empty JSON object (the opening brace
already consumed), with the value parser supplied as an argument.
Returns the members and the input after the closing brace.  Fuel is
one unit per member. -/
def parseMembersWith (pv : List Char → Option (JsonVal × List Char)) :
    Nat → List Char → List (String × JsonVal) →
    Option (List (String × JsonVal) × List Char)
  | 0, _, _ => none
  | fuel + 1, cs, acc =>
    match skipWs cs with
    | [] => none
    | c :: rest =>
      if c == '"' then
        match parseStringBody (rest.length + 1) [] rest with
        | none => none
        | some (k, cs2) =>
          match skipWs cs2 with
          | ':' :: cs3 =>
            match pv (skipWs cs3) with
            | none => none
            | some (v, cs4) =>
              match skipWs cs4 with
              | ',' :: cs5 => parseMembersWith pv fuel cs5 (acc ++ [(k, v)])
              | d :: cs5 => if d == rbrace then some (acc ++ [(k, v)], cs5) else none
              | [] => none
          | _ => none
      else none

/-- Parse the elements of a non-empty JSON array (the opening bracket
already consumed), with the value parser supplied as an argument.
Fuel is one unit per element. -/
def parseElemsWith (pv : List Char → Option (JsonVal × List Char)) :
    Nat → List Char → List JsonVal → Option (List JsonVal × List Char)
  | 0, _, _ => none
  | fuel + 1, cs, acc =>
    match pv (skipWs cs) with
    | none => none
    | some (v, cs2) =>
      match skipWs cs2 with
      | ',' :: cs3 => parseElemsWith pv fuel cs3 (acc ++ [v])
      | d :: cs3 => if d == ']' then some (acc ++ [v], cs3) else none
      | [] => none

/-- Parse one JSON value: string, number, boolean, null, object or
array, recursing on fuel for nested structures (one fuel unit per
nesting level, each of which consumes at least one character, so fuel
`length + 1` never runs out). -/
def parseJsonValue : Nat → List Char → Option (JsonVal × List Char)
  | 0, _ => none
  | fuel + 1, cs =>
    match cs with
    | [] => none
    | c :: rest =>
      if c == '"' then
        match parseStringBody (rest.length + 1) [] rest with
        | some (s, cs2) => some (.jstr s, cs2)
        | none => none
      else if c == lbrace then
        match skipWs rest with
        | [] => none
        | d :: rest2 =>
          if d == rbrace then some (.jobj [], rest2)
          else
            match parseMembersWith (parseJsonValue fuel) (rest.length + 1) rest [] with
            | some (kvs, cs2) => some (.jobj kvs, cs2)
            | none => none
      else if c == '[' then
        match skipWs rest with
        | [] => none
        | d :: rest2 =>
          if d == ']' then some (.jarr [], rest2)
          else
            match parseElemsWith (parseJsonValue fuel) (rest.length + 1) rest [] with
            | some (es, cs2) => some (.jarr es, cs2)
            | none => none
      else if c == 't' then
        match rest with
        | 'r' :: 'u' :: 'e' :: cs2 => some (.jbool true, cs2)
        | _ => none
      else if c == 'f' then
        match rest with
        | 'a' :: 'l' :: 's' :: 'e' :: cs2 => some (.jbool false, cs2)
        | _ => none
      else if c == 'n' then
        match rest with
        | 'u' :: 'l' :: 'l' :: cs2 => some (.jnull, cs2)
        | _ => none
      else if c == '-' || isDigitChar c then parseJsonNumber cs
      else none

/-- `JSON.parse`: one complete JSON document with optional surrounding
whitespace; `none` exactly when `JSON.parse` throws. -/
def jsonParse (s : String) : Option JsonVal :=
  match parseJsonValue (s.length + 1) (skipWs s.toList) with
  | some (v, rest) => if (skipWs rest).isEmpty then some v else none
  | none => none

/-- Property lookup on a parsed object; with duplicate keys the last
member wins, as in a JS object. -/
def objLookup (kvs : List (String × JsonVal)) (k : String) : Option JsonVal :=
  (kvs.reverse.find? (fun p => p.1 == k)).map (fun p => p.2)

/-- The envelope classification performed at the top of `decryptData`:
`JSON.parse(ciphertext)` followed by the
`!cipherData.cipher || !cipherData.iv` check (a non-object parse
result has `undefined` properties, hence falsy).  `some (cipher, iv)`
exactly when the code proceeds to the HSM decrypt call; `none` exactly
when it takes the legacy-plaintext branch. -/
def parseEnvelope (s : String) : Option (JsonVal × JsonVal) :=
  match jsonParse s with
  | some (.jobj kvs) =>
    match objLookup kvs "cipher", objLookup kvs "iv" with
    | some c, some i => if c.truthy && i.truthy then some (c, i) else none
    | some _, none => none
    | none, _ => none
  | _ => none

/-- `JSON.stringify({cipher, iv})` for the escape-free base64 text the
HSM returns (the only values the code serialises). -/
def envelopeStringify (cipher iv : String) : String :=
  "\x7b\"cipher\":\"" ++ cipher ++ "\",\"iv\":\"" ++ iv ++ "\"\x7d"

/-! ## The Fortanix DSM service (`backend/services/fortanixService.js`) -/

/-- A thrown JS exception: a `TypeError` (e.g. a property access on
`undefined`) or an ordinary `Error`, each with its message. -/
inductive JsError : Type where
  | typeError (msg : String)
  | jsError (msg : String)
deriving Repr, DecidableEq

/-- The mutable fields of a `FortanixDSMService` instance together with
the construction-time configuration.  `apiKey` is `none` when the
`FORTANIX_API_KEY` environment variable is unset (`undefined` in JS);
`tokenExpiry` is `none` for the initial `null`. -/
structure DSMState : Type where
  authMethod : String
  apiKey : Option String
  appId : Option String
  keyId : Option String
  accessToken : Option String
  tokenExpiry : Option Int
  demoMode : Bool
deriving Repr, DecidableEq

/-- The successful JSON body of the session-auth exchange. -/
structure AuthResp : Type where
  access_token : String
  expires_in : Nat
deriving Repr, DecidableEq

/-- The ambient environment of one service operation: the clock
(`Date.now()`), the certificate filesystem probes, and the network
transport modelled as oracles.  `authNet` answers the
`/sys/v1/session/auth` POST, `encryptNet` the `/crypto/v1/encrypt`
POST (keyed by the base64 `plain` payload), and `decryptNet` the
`/crypto/v1/decrypt` POST (keyed by the `cipher` and `iv` payload
fields); an `Except.error` is a transport or HTTP failure. -/
structure NetEnv : Type where
  now : Nat
  certExists : Bool
  keyExists : Bool
  authNet : Except String AuthResp
  encryptNet : String → Except String (String × String)
  decryptNet : JsonVal → JsonVal → Except String String

deriving instance DecidableEq for Except

/-- The outcome of one service operation: the JS return value or thrown
exception, the mutated service state, the number of network requests
issued, and the number of `authenticate()` invocations performed. -/
structure OpResult (α : Type) : Type where
  result : Except JsError α
  state : DSMState
  netCalls : Nat
  authCalls : Nat
deriving Repr, DecidableEq

/-- Is the second list a prefix of the first? -/
def listHasPrefix : List Char → List Char → Bool
  | _, [] => true
  | [], _ :: _ => false
  | c :: cs, d :: ds => c == d && listHasPrefix cs ds

/-- Does the second list occur contiguously inside the first? -/
def listHasInfix : List Char → List Char → Bool
  | [], ds => ds.isEmpty
  | c :: cs, ds => listHasPrefix (c :: cs) ds || listHasInfix cs ds

/-- `haystack.includes(needle)`, as used by the demo-key check. -/
def strIncludes (haystack needle : String) : Bool :=
  listHasInfix haystack.toList needle.toList

/-- The demo/placeholder-credential condition of
`authenticateWithAPIKey`, evaluated on a defined key string, in source
order: `includes('fff-ff-ff-ff-ff-f') || includes('your-') ||
!apiKey || apiKey.length < 10`. -/
def isDemoKey (k : String) : Bool :=
  strIncludes k "fff-ff-ff-ff-ff-f" || strIncludes k "your-" ||
    k == "" || decide (k.length < 10)

/-- API-key authentication (`authenticateWithAPIKey`): a `TypeError`
when the key is `undefined` (the guard dereferences
`this.apiKey.includes` before anything else), the no-network demo
short-circuit when the key matches the placeholder heuristic, and the
session-auth exchange otherwise.  The `catch` block rethrows the
original error, so failures propagate unchanged. -/
def authenticateWithAPIKey (env : NetEnv) (st : DSMState) : OpResult String :=
  match st.apiKey with
  | none =>
    { result := .error (JsError.typeError "Cannot read properties of undefined (reading includes)")
      state := st, netCalls := 0, authCalls := 0 }
  | some k =>
    if isDemoKey k then
      { result := .ok "demo-access-token"
        state := { st with accessToken := some "demo-access-token"
                           tokenExpiry := some ((env.now : Int) + 3600 * 1000)
                           demoMode := true }
        netCalls := 0, authCalls := 0 }
    else
      match env.authNet with
      | .ok r =>
        { result := .ok r.access_token
          state := { st with accessToken := some r.access_token
                             tokenExpiry := some ((env.now : Int) + (r.expires_in : Int) * 1000)
                             demoMode := false }
          netCalls := 1, authCalls := 0 }
      | .error e =>
        { result := .error (JsError.jsError e), state := st, netCalls := 1, authCalls := 0 }

/-- Trusted-CA authentication (`authenticateWithTrustedCA`): fails fast
without network when either certificate file is missing, otherwise
performs the mTLS session-auth exchange. -/
def authenticateWithTrustedCA (env : NetEnv) (st : DSMState) : OpResult String :=
  if !env.certExists || !env.keyExists then
    { result := .error (JsError.jsError "Certificate files not found")
      state := st, netCalls := 0, authCalls := 0 }
  else
    match env.authNet with
    | .ok r =>
      { result := .ok r.access_token
        state := { st with accessToken := some r.access_token
                           tokenExpiry := some ((env.now : Int) + (r.expires_in : Int) * 1000)
                           demoMode := false }
        netCalls := 1, authCalls := 0 }
    | .error e =>
      { result := .error (JsError.jsError e), state := st, netCalls := 1, authCalls := 0 }

/-- `authenticate()`: dispatch on the configured method.  Counts as one
authentication exchange. -/
def authenticate (env : NetEnv) (st : DSMState) : OpResult String :=
  let r :=
    if st.authMethod == "trusted_ca" then authenticateWithTrustedCA env st
    else authenticateWithAPIKey env st
  { r with authCalls := r.authCalls + 1 }

/-- JS arithmetic coercion of the stored `tokenExpiry`: `null` behaves
as `0` in `this.tokenExpiry - 60000`. -/
def expiryNum : Option Int → Int
  | none => 0
  | some e => e

/-- `ensureAuthenticated()`: re-authenticate only when no (truthy)
token exists or `Date.now() >= tokenExpiry - 60000`; otherwise return
the cached token without any exchange. -/
def ensureAuthenticated (env : NetEnv) (st : DSMState) : OpResult (Option String) :=
  if !(jsTruthy st.accessToken) || decide ((env.now : Int) ≥ expiryNum st.tokenExpiry - 60000) then
    let r := authenticate env st
    match r.result with
    | .ok _ =>
      { result := .ok r.state.accessToken, state := r.state
        netCalls := r.netCalls, authCalls := r.authCalls }
    | .error e =>
      { result := .error e, state := r.state
        netCalls := r.netCalls, authCalls := r.authCalls }
  else
    { result := .ok st.accessToken, state := st, netCalls := 0, authCalls := 0 }

/-- The demo-mode simulated cipher:
`Buffer.from('encrypted:' + plaintext + ':' + Date.now()).toString('base64')`. -/
def demoEncrypt (plaintext : String) (now : Nat) : String :=
  base64Encode (utf8Bytes ("encrypted:" ++ plaintext ++ ":" ++ toString now))

/-- `encryptData(plaintext)`: `null` on falsy input; then
`ensureAuthenticated()`; then the demo simulation when `demoMode` is
set, else the `/crypto/v1/encrypt` exchange whose `{cipher, iv}`
response is serialised with `JSON.stringify`.  Any error is caught and
rethrown as `Error('Failed to encrypt data with Fortanix DSM')`. -/
def encryptData (env : NetEnv) (st : DSMState) (plaintext : String) :
    OpResult (Option String) :=
  if plaintext == "" then
    { result := .ok none, state := st, netCalls := 0, authCalls := 0 }
  else
    let ea := ensureAuthenticated env st
    match ea.result with
    | .error _ =>
      { result := .error (JsError.jsError "Failed to encrypt data with Fortanix DSM")
        state := ea.state, netCalls := ea.netCalls, authCalls := ea.authCalls }
    | .ok _ =>
      if ea.state.demoMode then
        { result := .ok (some (demoEncrypt plaintext env.now))
          state := ea.state, netCalls := ea.netCalls, authCalls := ea.authCalls }
      else
        match env.encryptNet (base64Encode (utf8Bytes plaintext)) with
        | .ok (c, i) =>
          { result := .ok (some (envelopeStringify c i))
            state := ea.state, netCalls := ea.netCalls + 1, authCalls := ea.authCalls }
        | .error _ =>
          { result := .error (JsError.jsError "Failed to encrypt data with Fortanix DSM")
            state := ea.state, netCalls := ea.netCalls + 1, authCalls := ea.authCalls }

/-- `decryptData(ciphertext)`: `null` on falsy input; then
`ensureAuthenticated()`; then the envelope classification — legacy
plaintext is returned as-is, an envelope goes to the
`/crypto/v1/decrypt` exchange whose base64 `plain` response is decoded
to UTF-8.  There is no demo-mode branch.  Any error is caught and
rethrown as `Error('Failed to decrypt data with Fortanix DSM')`. -/
def decryptData (env : NetEnv) (st : DSMState) (ciphertext : String) :
    OpResult (Option String) :=
  if ciphertext == "" then
    { result := .ok none, state := st, netCalls := 0, authCalls := 0 }
  else
    let ea := ensureAuthenticated env st
    match ea.result with
    | .error _ =>
      { result := .error (JsError.jsError "Failed to decrypt data with Fortanix DSM")
        state := ea.state, netCalls := ea.netCalls, authCalls := ea.authCalls }
    | .ok _ =>
      match parseEnvelope ciphertext with
      | none =>
        { result := .ok (some ciphertext)
          state := ea.state, netCalls := ea.netCalls, authCalls := ea.authCalls }
      | some (c, i) =>
        match env.decryptNet c i with
        | .ok plainB64 =>
          { result := .ok (some (utf8Decode (base64Decode plainB64)))
            state := ea.state, netCalls := ea.netCalls + 1, authCalls := ea.authCalls }
        | .error _ =>
          { result := .error (JsError.jsError "Failed to decrypt data with Fortanix DSM")
            state := ea.state, netCalls := ea.netCalls + 1, authCalls := ea.authCalls }

/-! ## The field codec (`services/encryptionService.js`)

The codec loops over the configured sensitive-field list, calling
`this.fortanixService.encryptData` / `decryptData` once per present,
truthy field.  The embedding abstracts that service call as a function
argument (`encF` / `decF`), so that the codec's control flow — which
fields it touches, what it does on a thrown error — is proved for
every behaviour of the HSM client. -/

/-- `encryptionConfig.citizens.sensitiveFields`. -/
def citizensSensitiveFields : List String :=
  ["firstName", "lastName", "email", "phone", "address", "zipCode", "dateOfBirth"]

/-- `encryptionConfig.serviceRequests.sensitiveFields`. -/
def serviceRequestsSensitiveFields : List String :=
  ["notes", "applicationData"]

/-- `encryptionConfig.citizens.publicFields`. -/
def citizensPublicFields : List String :=
  ["citizenId", "city", "state", "status", "createdAt", "updatedAt"]

/-- `encryptionConfig.serviceRequests.publicFields`. -/
def serviceRequestsPublicFields : List String :=
  ["requestNumber", "citizenId", "serviceTypeId", "status", "priority",
   "submittedDate", "assignedAgent"]

/-- The shared encryption loop of `encryptCitizenData` and
`encryptServiceRequestData`: for each sensitive field whose value in
the ORIGINAL record is truthy, store `encF value` under
`field + "_encrypted"` in the accumulator and delete the plaintext
field; a thrown `encF` error aborts the whole loop (the `catch` block
rethrows). -/
def encryptFieldsLoop (encF : String → Except JsError String) (orig : Record) :
    List String → Record → Except JsError Record
  | [], acc => .ok acc
  | f :: fs, acc =>
    match rget orig f with
    | some v =>
      if v.truthy then
        match encF v.asStr with
        | .ok e => encryptFieldsLoop encF orig fs (rdel (rset acc (f ++ "_encrypted") (.vstr e)) f)
        | .error err => .error err
      else encryptFieldsLoop encF orig fs acc
    | none => encryptFieldsLoop encF orig fs acc

/-- `encryptCitizenData(citizenData)` with the HSM encrypt call
abstracted as `encF`. -/
def encryptCitizenData (encF : String → Except JsError String) (citizenData : Record) :
    Except JsError Record :=
  encryptFieldsLoop encF citizenData citizensSensitiveFields citizenData

/-- `encryptServiceRequestData(requestData)` with the HSM encrypt call
abstracted as `encF`. -/
def encryptServiceRequestData (encF : String → Except JsError String) (requestData : Record) :
    Except JsError Record :=
  encryptFieldsLoop encF requestData serviceRequestsSensitiveFields requestData

/-- The shared decryption loop of `decryptCitizenData` and
`decryptServiceRequestData`: for each sensitive field whose
`field + "_encrypted"` value in the ORIGINAL record is truthy, write
the decrypted plaintext — or, when `decF` throws, the field-specific
fallback label — under `field`, and delete the `_encrypted` key in
both branches.  Per-field errors are caught locally, so the loop is
total. -/
def decryptFieldsLoop (decF : String → Except JsError String) (fallback : String → String)
    (orig : Record) : List String → Record → Record
  | [], acc => acc
  | f :: fs, acc =>
    match rget orig (f ++ "_encrypted") with
    | some v =>
      if v.truthy then
        match decF v.asStr with
        | .ok p =>
          decryptFieldsLoop decF fallback orig fs (rdel (rset acc f (.vstr p)) (f ++ "_encrypted"))
        | .error _ =>
          decryptFieldsLoop decF fallback orig fs
            (rdel (rset acc f (.vstr (fallback f))) (f ++ "_encrypted"))
      else decryptFieldsLoop decF fallback orig fs acc
    | none => decryptFieldsLoop decF fallback orig fs acc

/-- The citizen fallback-label table (`fallbackValues` in
`decryptCitizenData`, with the `'[Encrypted Data]'` default). -/
def citizenFallback : String → String
  | "firstName" => "[Encrypted]"
  | "lastName" => "[Data]"
  | "email" => "[Encrypted Email]"
  | "phone" => "[Encrypted Phone]"
  | "address" => "[Encrypted Address]"
  | "zipCode" => "[Protected]"
  | "dateOfBirth" => "[Protected DOB]"
  | _ => "[Encrypted Data]"

/-- The service-request fallback-label table (`fallbackValues` in
`decryptServiceRequestData`, with the `'[Encrypted Data]'` default). -/
def serviceRequestFallback : String → String
  | "notes" => "[Encrypted Notes]"
  | "applicationData" => "[Encrypted Application Data]"
  | _ => "[Encrypted Data]"

/-- `decryptCitizenData(encryptedCitizenData)` with the HSM decrypt
call abstracted as `decF` (the `null` input guard is the caller's
concern; records here are always objects). -/
def decryptCitizenData (decF : String → Except JsError String) (encryptedCitizenData : Record) :
    Record :=
  decryptFieldsLoop decF citizenFallback encryptedCitizenData citizensSensitiveFields
    encryptedCitizenData

/-- `decryptServiceRequestData(encryptedRequestData)` with the HSM
decrypt call abstracted as `decF`. -/
def decryptServiceRequestData (decF : String → Except JsError String)
    (encryptedRequestData : Record) : Record :=
  decryptFieldsLoop decF serviceRequestFallback encryptedRequestData
    serviceRequestsSensitiveFields encryptedRequestData

/-! ## The encrypted database services (`backend/database/encryptedDb.js`)

`create` first runs the codec and only then executes the INSERT; a
thrown codec error propagates before any database statement runs.  The
database is modelled as the list of inserted rows. -/

/-- The row the citizen INSERT statement binds, in column order
(absent record properties bind as `null`). -/
def citizenInsertRow (encryptedData : Record) : Record :=
  ["citizenId", "firstName_encrypted", "lastName_encrypted", "email_encrypted",
   "phone_encrypted", "address_encrypted", "zipCode_encrypted", "dateOfBirth_encrypted",
   "city", "state"].map
    (fun c => (c, (rget encryptedData c).getD JsValue.vnull))

/-- The row the service-request INSERT statement binds, in column
order. -/
def serviceRequestInsertRow (encryptedData : Record) : Record :=
  ["requestNumber", "citizenId", "serviceTypeId", "status", "priority",
   "assignedAgent", "notes_encrypted", "applicationData_encrypted"].map
    (fun c => (c, (rget encryptedData c).getD JsValue.vnull))

/-- `encryptedCitizenService.create(citizenData)` over a database
state: encrypt, then INSERT.  On a codec error the error propagates
and no row is inserted — the resulting database is not produced at
all. -/
def citizenCreate (encF : String → Except JsError String) (db : List Record)
    (citizenData : Record) : Except JsError (List Record) :=
  match encryptCitizenData encF citizenData with
  | .error e => .error e
  | .ok encryptedData => .ok (db ++ [citizenInsertRow encryptedData])

/-- `encryptedServiceRequestService.create(requestData)` over a
database state: encrypt, then INSERT. -/
def serviceRequestCreate (encF : String → Except JsError String) (db : List Record)
    (requestData : Record) : Except JsError (List Record) :=
  match encryptServiceRequestData encF requestData with
  | .error e => .error e
  | .ok encryptedData => .ok (db ++ [serviceRequestInsertRow encryptedData])

/-! ## Concrete fixtures

The `FortanixDSMService` constructor reads its configuration from the
process environment (`FORTANIX_AUTH_METHOD` defaulting to `api_key`,
then `FORTANIX_API_KEY`, `FORTANIX_APP_ID`, `FORTANIX_KEY_ID`) and
starts with no token; the endpoint selection is not represented, as no
claim observes it.  The fixtures below are service states and
environments used to evaluate the model at concrete inputs. -/

/-- The constructor, applied to the four environment variables
(`none` = unset). -/
def mkService (envAuthMethod envApiKey envAppId envKeyId : Option String) : DSMState :=
  { authMethod := envAuthMethod.getD "api_key"
    apiKey := envApiKey
    appId := envAppId
    keyId := envKeyId
    accessToken := none
    tokenExpiry := none
    demoMode := false }

/-- A service constructed with the `.env` placeholder API key. -/
def placeholderService : DSMState :=
  mkService none (some "your-api-key-here") none (some "key-1")

/-- A service constructed in a process with none of the encryption
environment variables set. -/
def unconfiguredService : DSMState :=
  mkService none none none none

/-- An environment whose transport refuses every request — any network
attempt is still counted, it just fails. -/
def noNet : NetEnv :=
  { now := 0, certExists := false, keyExists := false
    authNet := .error "ECONNREFUSED"
    encryptNet := fun _ => .error "ECONNREFUSED"
    decryptNet := fun _ _ => .error "ECONNREFUSED" }

/-- An environment whose session-auth exchange succeeds with a
600-second token. -/
def liveAuthEnv : NetEnv :=
  { noNet with authNet := .ok { access_token := "tok123", expires_in := 600 } }

/-- The demo-mode session obtained by authenticating the
placeholder-key service. -/
def demoSession : DSMState :=
  (authenticate noNet placeholderService).state

/-- A service constructed with a realistically shaped (non-placeholder)
API key. -/
def realKeyService : DSMState :=
  mkService none (some "NDUxMzE5NzYtreal-key-material") none (some "key-1")

/-- A sample HSM encrypt behaviour that always succeeds. -/
def okEncF : String → Except JsError String :=
  fun s => .ok ("enc:" ++ s)

/-- The HSM encrypt behaviour under total HSM unavailability: every
call throws the wrapped encryption error. -/
def failEncF : String → Except JsError String :=
  fun _ => .error (.jsError "Failed to encrypt data with Fortanix DSM")

/-- The HSM decrypt behaviour under total HSM unavailability: every
call throws the wrapped decryption error (this is also what
`decryptData` throws when authentication itself fails). -/
def failDecF : String → Except JsError String :=
  fun _ => .error (.jsError "Failed to decrypt data with Fortanix DSM")

/-- A demo-mode session as far as the claims observe it: demo flag set,
API-key dispatch, and a placeholder-shaped key still configured.
Every state in which `authenticate()` has set `demoMode` satisfies
this (the key and method fields are never mutated). -/
def DemoSession (st : DSMState) : Prop :=
  st.demoMode = true ∧ (st.authMethod == "trusted_ca") = false ∧
    ∃ k, st.apiKey = some k ∧ isDemoKey k = true

/-! ## Record-operation lemmas -/

theorem rget_rset_self (r : Record) (k : String) (v : JsValue) :
    rget (rset r k v) k = some v := by
  induction r with
  | nil => simp [rget, rset]
  | cons p rest ih =>
    obtain ⟨k', v'⟩ := p
    by_cases h : k' = k
    · subst h
      simp [rget, rset]
    · simpa [rget, rset, h] using ih

theorem rget_rset_ne (r : Record) (k k' : String) (v : JsValue) (h : k' ≠ k) :
    rget (rset r k v) k' = rget r k' := by
  induction r with
  | nil => simp [rget, rset, Ne.symm h]
  | cons p rest ih =>
    obtain ⟨k0, v0⟩ := p
    by_cases h0 : k0 = k
    · subst h0
      simp [rget, rset, Ne.symm h]
    · by_cases h1 : k0 = k'
      · subst h1
        simp [rget, rset, h0]
      · simpa [rget, rset, h0, h1] using ih

theorem rget_rdel_self (r : Record) (k : String) :
    rget (rdel r k) k = none := by
  induction r with
  | nil => simp [rget, rdel]
  | cons p rest ih =>
    obtain ⟨k0, v0⟩ := p
    by_cases h0 : k0 = k
    · simpa [rget, rdel, h0] using ih
    · simpa [rget, rdel, h0] using ih

theorem rget_rdel_ne (r : Record) (k k' : String) (h : k' ≠ k) :
    rget (rdel r k) k' = rget r k' := by
  induction r with
  | nil => simp [rget, rdel]
  | cons p rest ih =>
    obtain ⟨k0, v0⟩ := p
    by_cases h0 : k0 = k
    · subst h0
      simpa [rget, rdel, Ne.symm h] using ih
    · by_cases h1 : k0 = k'
      · subst h1
        simp [rget, rdel, h0]
      · simpa [rget, rdel, h0, h1] using ih

theorem rhas_rset (r : Record) (k k' : String) (v : JsValue) (h : rhas (rset r k v) k') :
    k' = k ∨ rhas r k' = true := by
  by_cases hk : k' = k
  · exact Or.inl hk
  · right
    unfold rhas at h ⊢
    rwa [rget_rset_ne r k k' v hk] at h

theorem rhas_rdel (r : Record) (k k' : String) (h : rhas (rdel r k) k') :
    rhas r k' = true := by
  by_cases hk : k' = k
  · subst hk
    unfold rhas at h
    rw [rget_rdel_self] at h
    simp at h
  · unfold rhas at h ⊢
    rwa [rget_rdel_ne r k k' hk] at h

/-- No string equals itself with the `_encrypted` suffix appended. -/
theorem ne_append_encrypted (s : String) : s ≠ s ++ "_encrypted" := by
  intro h
  have hlen := congrArg String.length h
  rw [String.length_append] at hlen
  have h10 : "_encrypted".length = 10 := rfl
  omega

/-! ## Encrypt-loop lemmas -/

theorem encLoop_preserve (encF : String → Except JsError String) (orig : Record) :
    ∀ (fields : List String) (acc out : Record) (k : String),
      (∀ g ∈ fields, fieldTruthy orig g = false ∨ (k ≠ g ∧ k ≠ g ++ "_encrypted")) →
      encryptFieldsLoop encF orig fields acc = .ok out →
      rget out k = rget acc k := by
  intro fields
  induction fields with
  | nil =>
    intro acc out k _ h
    simp only [encryptFieldsLoop] at h
    cases h
    rfl
  | cons f fs ih =>
    intro acc out k hcond h
    simp only [encryptFieldsLoop] at h
    rcases hv : rget orig f with _ | v
    · simp only [hv] at h
      exact ih acc out k (fun g hg => hcond g (List.mem_cons_of_mem f hg)) h
    · simp only [hv] at h
      cases ht : v.truthy with
      | false =>
        simp only [ht, Bool.false_eq_true, if_false] at h
        exact ih acc out k (fun g hg => hcond g (List.mem_cons_of_mem f hg)) h
      | true =>
        simp only [ht, if_true] at h
        cases he : encF v.asStr with
        | error err => simp only [he] at h; cases h
        | ok e =>
          simp only [he] at h
          rcases hcond f (List.mem_cons_self f fs) with hf | ⟨hkf, hkfe⟩
          · simp only [fieldTruthy, hv, ht] at hf
            cases hf
          · have hstep := ih _ out k (fun g hg => hcond g (List.mem_cons_of_mem f hg)) h
            rw [hstep, rget_rdel_ne _ _ _ hkf, rget_rset_ne _ _ _ _ hkfe]

theorem encLoop_plain_none (encF : String → Except JsError String) (orig : Record) :
    ∀ (fields : List String) (acc out : Record) (k : String),
      rget acc k = none →
      (∀ g ∈ fields, k ≠ g ++ "_encrypted") →
      encryptFieldsLoop encF orig fields acc = .ok out →
      rget out k = none := by
  intro fields
  induction fields with
  | nil =>
    intro acc out k hacc _ h
    simp only [encryptFieldsLoop] at h
    cases h
    exact hacc
  | cons f fs ih =>
    intro acc out k hacc hcond h
    simp only [encryptFieldsLoop] at h
    rcases hv : rget orig f with _ | v
    · simp only [hv] at h
      exact ih acc out k hacc (fun g hg => hcond g (List.mem_cons_of_mem f hg)) h
    · simp only [hv] at h
      cases ht : v.truthy with
      | false =>
        simp only [ht, Bool.false_eq_true, if_false] at h
        exact ih acc out k hacc (fun g hg => hcond g (List.mem_cons_of_mem f hg)) h
      | true =>
        simp only [ht, if_true] at h
        cases he : encF v.asStr with
        | error err => simp only [he] at h; cases h
        | ok e =>
          simp only [he] at h
          have hacc2 : rget (rdel (rset acc (f ++ "_encrypted") (.vstr e)) f) k = none := by
            by_cases hkf : k = f
            · subst hkf
              exact rget_rdel_self _ _
            · rw [rget_rdel_ne _ _ _ hkf,
                rget_rset_ne _ _ _ _ (hcond f (List.mem_cons_self f fs))]
              exact hacc
          exact ih _ out k hacc2 (fun g hg => hcond g (List.mem_cons_of_mem f hg)) h

theorem encLoop_isSomefixed (encF : String → Except JsError String) (orig : Record) :
    ∀ (fields : List String) (acc out : Record) (k : String),
      (rget acc k).isSome = true →
      (∀ g ∈ fields, k ≠ g) →
      encryptFieldsLoop encF orig fields acc = .ok out →
      (rget out k).isSome = true := by
  intro fields
  induction fields with
  | nil =>
    intro acc out k hacc _ h
    simp only [encryptFieldsLoop] at h
    cases h
    exact hacc
  | cons f fs ih =>
    intro acc out k hacc hcond h
    simp only [encryptFieldsLoop] at h
    rcases hv : rget orig f with _ | v
    · simp only [hv] at h
      exact ih acc out k hacc (fun g hg => hcond g (List.mem_cons_of_mem f hg)) h
    · simp only [hv] at h
      cases ht : v.truthy with
      | false =>
        simp only [ht, Bool.false_eq_true, if_false] at h
        exact ih acc out k hacc (fun g hg => hcond g (List.mem_cons_of_mem f hg)) h
      | true =>
        simp only [ht, if_true] at h
        cases he : encF v.asStr with
        | error err => simp only [he] at h; cases h
        | ok e =>
          simp only [he] at h
          have hacc2 : (rget (rdel (rset acc (f ++ "_encrypted") (.vstr e)) f) k).isSome = true := by
            rw [rget_rdel_ne _ _ _ (hcond f (List.mem_cons_self f fs))]
            by_cases hke : k = f ++ "_encrypted"
            · subst hke
              rw [rget_rset_self]
              rfl
            · rw [rget_rset_ne _ _ _ _ hke]
              exact hacc
          exact ih _ out k hacc2 (fun g hg => hcond g (List.mem_cons_of_mem f hg)) h

theorem encLoop_plainRemoved (encF : String → Except JsError String) (orig : Record) :
    ∀ (fields : List String) (acc out : Record) (f : String),
      f ∈ fields →
      fieldTruthy orig f = true →
      (∀ g ∈ fields, f ≠ g ++ "_encrypted") →
      encryptFieldsLoop encF orig fields acc = .ok out →
      rget out f = none := by
  intro fields
  induction fields with
  | nil =>
    intro acc out f hf
    cases hf
  | cons g fs ih =>
    intro acc out f hf htruthy hcond h
    simp only [encryptFieldsLoop] at h
    by_cases hgf : g = f
    · subst hgf
      rw [fieldTruthy] at htruthy
      rcases hv : rget orig g with _ | v
      · simp only [hv] at htruthy
        cases htruthy
      · simp only [hv] at htruthy
        simp only [hv, htruthy, if_true] at h
        cases he : encF v.asStr with
        | error err => simp only [he] at h; cases h
        | ok e =>
          simp only [he] at h
          have hacc2 : rget (rdel (rset acc (g ++ "_encrypted") (.vstr e)) g) g = none :=
            rget_rdel_self _ _
          exact encLoop_plain_none encF orig fs _ out g hacc2
            (fun g' hg' => hcond g' (List.mem_cons_of_mem g hg')) h
    · have hffs : f ∈ fs := by
        rcases List.mem_cons.mp hf with h1 | h1
        · exact absurd h1.symm hgf
        · exact h1
      rcases hv : rget orig g with _ | v
      · simp only [hv] at h
        exact ih acc out f hffs htruthy (fun g' hg' => hcond g' (List.mem_cons_of_mem g hg')) h
      · simp only [hv] at h
        cases ht : v.truthy with
        | false =>
          simp only [ht, Bool.false_eq_true, if_false] at h
          exact ih acc out f hffs htruthy (fun g' hg' => hcond g' (List.mem_cons_of_mem g hg')) h
        | true =>
          simp only [ht, if_true] at h
          cases he : encF v.asStr with
          | error err => simp only [he] at h; cases h
          | ok e =>
            simp only [he] at h
            exact ih _ out f hffs htruthy (fun g' hg' => hcond g' (List.mem_cons_of_mem g hg')) h

theorem encLoop_envelopePresent (encF : String → Except JsError String) (orig : Record) :
    ∀ (fields : List String) (acc out : Record) (f : String),
      f ∈ fields →
      fieldTruthy orig f = true →
      (∀ g ∈ fields, f ++ "_encrypted" ≠ g) →
      encryptFieldsLoop encF orig fields acc = .ok out →
      (rget out (f ++ "_encrypted")).isSome = true := by
  intro fields
  induction fields with
  | nil =>
    intro acc out f hf
    cases hf
  | cons g fs ih =>
    intro acc out f hf htruthy hcond h
    simp only [encryptFieldsLoop] at h
    by_cases hgf : g = f
    · subst hgf
      rw [fieldTruthy] at htruthy
      rcases hv : rget orig g with _ | v
      · simp only [hv] at htruthy
        cases htruthy
      · simp only [hv] at htruthy
        simp only [hv, htruthy, if_true] at h
        cases he : encF v.asStr with
        | error err => simp only [he] at h; cases h
        | ok e =>
          simp only [he] at h
          have hacc2 : (rget (rdel (rset acc (g ++ "_encrypted") (.vstr e)) g)
              (g ++ "_encrypted")).isSome = true := by
            rw [rget_rdel_ne _ _ _ (Ne.symm (ne_append_encrypted g)), rget_rset_self]
            rfl
          exact encLoop_isSomefixed encF orig fs _ out (g ++ "_encrypted") hacc2
            (fun g' hg' => hcond g' (List.mem_cons_of_mem g hg')) h
    · have hffs : f ∈ fs := by
        rcases List.mem_cons.mp hf with h1 | h1
        · exact absurd h1.symm hgf
        · exact h1
      rcases hv : rget orig g with _ | v
      · simp only [hv] at h
        exact ih acc out f hffs htruthy (fun g' hg' => hcond g' (List.mem_cons_of_mem g hg')) h
      · simp only [hv] at h
        cases ht : v.truthy with
        | false =>
          simp only [ht, Bool.false_eq_true, if_false] at h
          exact ih acc out f hffs htruthy (fun g' hg' => hcond g' (List.mem_cons_of_mem g hg')) h
        | true =>
          simp only [ht, if_true] at h
          cases he : encF v.asStr with
          | error err => simp only [he] at h; cases h
          | ok e =>
            simp only [he] at h
            exact ih _ out f hffs htruthy (fun g' hg' => hcond g' (List.mem_cons_of_mem g hg')) h

theorem encLoop_noNewKeys (encF : String → Except JsError String) (orig : Record) :
    ∀ (fields : List String) (acc out : Record) (k : String),
      encryptFieldsLoop encF orig fields acc = .ok out →
      rhas out k = true →
      rhas acc k = true ∨ ∃ g ∈ fields, k = g ++ "_encrypted" := by
  intro fields
  induction fields with
  | nil =>
    intro acc out k h hout
    simp only [encryptFieldsLoop] at h
    cases h
    exact Or.inl hout
  | cons f fs ih =>
    intro acc out k h hout
    simp only [encryptFieldsLoop] at h
    rcases hv : rget orig f with _ | v
    · simp only [hv] at h
      rcases ih acc out k h hout with h1 | ⟨g, hg, hk⟩
      · exact Or.inl h1
      · exact Or.inr ⟨g, List.mem_cons_of_mem f hg, hk⟩
    · simp only [hv] at h
      cases ht : v.truthy with
      | false =>
        simp only [ht, Bool.false_eq_true, if_false] at h
        rcases ih acc out k h hout with h1 | ⟨g, hg, hk⟩
        · exact Or.inl h1
        · exact Or.inr ⟨g, List.mem_cons_of_mem f hg, hk⟩
      | true =>
        simp only [ht, if_true] at h
        cases he : encF v.asStr with
        | error err => simp only [he] at h; cases h
        | ok e =>
          simp only [he] at h
          rcases ih _ out k h hout with h1 | ⟨g, hg, hk⟩
          · have h2 := rhas_rdel _ _ _ h1
            rcases rhas_rset _ _ _ _ h2 with h3 | h3
            · exact Or.inr ⟨f, List.mem_cons_self f fs, h3⟩
            · exact Or.inl h3
          · exact Or.inr ⟨g, List.mem_cons_of_mem f hg, hk⟩

theorem encLoop_fail (encF : String → Except JsError String) (orig : Record) :
    ∀ (fields : List String) (acc : Record),
      (∃ f ∈ fields, ∃ v, rget orig f = some v ∧ v.truthy = true ∧
        ∃ err, encF v.asStr = .error err) →
      ∀ out, encryptFieldsLoop encF orig fields acc ≠ .ok out := by
  intro fields
  induction fields with
  | nil =>
    intro acc hw out
    rcases hw with ⟨f, hf, _⟩
    cases hf
  | cons g fs ih =>
    intro acc hw out h
    simp only [encryptFieldsLoop] at h
    rcases hw with ⟨f, hf, v, hv, ht, err, he⟩
    by_cases hgf : g = f
    · subst hgf
      simp only [hv, ht, if_true] at h
      simp only [he] at h
      cases h
    · have hffs : f ∈ fs := by
        rcases List.mem_cons.mp hf with h1 | h1
        · exact absurd h1.symm hgf
        · exact h1
      have hwfs : ∃ f ∈ fs, ∃ v, rget orig f = some v ∧ v.truthy = true ∧
          ∃ err, encF v.asStr = .error err := ⟨f, hffs, v, hv, ht, err, he⟩
      rcases hv2 : rget orig g with _ | w
      · simp only [hv2] at h
        exact ih acc hwfs out h
      · simp only [hv2] at h
        cases ht2 : w.truthy with
        | false =>
          simp only [ht2, Bool.false_eq_true, if_false] at h
          exact ih acc hwfs out h
        | true =>
          simp only [ht2, if_true] at h
          cases he2 : encF w.asStr with
          | error err2 => simp only [he2] at h; cases h
          | ok e2 =>
            simp only [he2] at h
            exact ih _ hwfs out h

/-! ## Decrypt-loop lemmas -/

theorem decLoop_preserve (decF : String → Except JsError String) (fallback : String → String)
    (orig : Record) :
    ∀ (fields : List String) (acc : Record) (k : String),
      (∀ g ∈ fields, fieldTruthy orig (g ++ "_encrypted") = false ∨
        (k ≠ g ∧ k ≠ g ++ "_encrypted")) →
      rget (decryptFieldsLoop decF fallback orig fields acc) k = rget acc k := by
  intro fields
  induction fields with
  | nil =>
    intro acc k _
    simp only [decryptFieldsLoop]
  | cons f fs ih =>
    intro acc k hcond
    simp only [decryptFieldsLoop]
    rcases hv : rget orig (f ++ "_encrypted") with _ | v
    · simp only [hv]
      exact ih acc k (fun g hg => hcond g (List.mem_cons_of_mem f hg))
    · simp only [hv]
      cases ht : v.truthy with
      | false =>
        simp only [ht, Bool.false_eq_true, if_false]
        exact ih acc k (fun g hg => hcond g (List.mem_cons_of_mem f hg))
      | true =>
        simp only [ht, if_true]
        rcases hcond f (List.mem_cons_self f fs) with hf | ⟨hkf, hkfe⟩
        · simp only [fieldTruthy, hv, ht] at hf
          cases hf
        · cases he : decF v.asStr with
          | error err =>
            simp only [he]
            rw [ih _ k (fun g hg => hcond g (List.mem_cons_of_mem f hg)),
              rget_rdel_ne _ _ _ hkfe, rget_rset_ne _ _ _ _ hkf]
          | ok p =>
            simp only [he]
            rw [ih _ k (fun g hg => hcond g (List.mem_cons_of_mem f hg)),
              rget_rdel_ne _ _ _ hkfe, rget_rset_ne _ _ _ _ hkf]

theorem decLoop_none (decF : String → Except JsError String) (fallback : String → String)
    (orig : Record) :
    ∀ (fields : List String) (acc : Record) (k : String),
      rget acc k = none →
      (∀ g ∈ fields, k ≠ g) →
      rget (decryptFieldsLoop decF fallback orig fields acc) k = none := by
  intro fields
  induction fields with
  | nil =>
    intro acc k hacc _
    simpa only [decryptFieldsLoop] using hacc
  | cons f fs ih =>
    intro acc k hacc hcond
    simp only [decryptFieldsLoop]
    rcases hv : rget orig (f ++ "_encrypted") with _ | v
    · simp only [hv]
      exact ih acc k hacc (fun g hg => hcond g (List.mem_cons_of_mem f hg))
    · simp only [hv]
      cases ht : v.truthy with
      | false =>
        simp only [ht, Bool.false_eq_true, if_false]
        exact ih acc k hacc (fun g hg => hcond g (List.mem_cons_of_mem f hg))
      | true =>
        simp only [ht, if_true]
        have hstep : ∀ w : JsValue,
            rget (rdel (rset acc f w) (f ++ "_encrypted")) k = none := by
          intro w
          by_cases hke : k = f ++ "_encrypted"
          · subst hke
            exact rget_rdel_self _ _
          · rw [rget_rdel_ne _ _ _ hke,
              rget_rset_ne _ _ _ _ (hcond f (List.mem_cons_self f fs))]
            exact hacc
        cases he : decF v.asStr with
        | error err =>
          simp only [he]
          exact ih _ k (hstep _) (fun g hg => hcond g (List.mem_cons_of_mem f hg))
        | ok p =>
          simp only [he]
          exact ih _ k (hstep _) (fun g hg => hcond g (List.mem_cons_of_mem f hg))

theorem decLoop_envRemoved (decF : String → Except JsError String) (fallback : String → String)
    (orig : Record) :
    ∀ (fields : List String) (acc : Record) (f : String),
      f ∈ fields →
      fieldTruthy orig (f ++ "_encrypted") = true →
      (∀ g ∈ fields, ∀ g' ∈ fields, g ≠ g' ++ "_encrypted") →
      rget (decryptFieldsLoop decF fallback orig fields acc) (f ++ "_encrypted") = none := by
  intro fields
  induction fields with
  | nil =>
    intro acc f hf
    cases hf
  | cons g fs ih =>
    intro acc f hf htruthy hni
    simp only [decryptFieldsLoop]
    have hni' : ∀ a ∈ fs, ∀ b ∈ fs, a ≠ b ++ "_encrypted" :=
      fun a ha b hb => hni a (List.mem_cons_of_mem g ha) b (List.mem_cons_of_mem g hb)
    by_cases hgf : g = f
    · subst hgf
      rw [fieldTruthy] at htruthy
      rcases hv : rget orig (g ++ "_encrypted") with _ | v
      · simp only [hv] at htruthy
        cases htruthy
      · simp only [hv] at htruthy
        simp only [hv, htruthy, if_true]
        have hcond : ∀ g' ∈ fs, g ++ "_encrypted" ≠ g' := by
          intro g' hg'
          exact Ne.symm (hni g' (List.mem_cons_of_mem g hg') g (List.mem_cons_self g fs))
        cases he : decF v.asStr with
        | error err =>
          simp only [he]
          exact decLoop_none decF fallback orig fs _ _ (rget_rdel_self _ _) hcond
        | ok p =>
          simp only [he]
          exact decLoop_none decF fallback orig fs _ _ (rget_rdel_self _ _) hcond
    · have hffs : f ∈ fs := by
        rcases List.mem_cons.mp hf with h1 | h1
        · exact absurd h1.symm hgf
        · exact h1
      rcases hv : rget orig (g ++ "_encrypted") with _ | v
      · simp only [hv]
        exact ih acc f hffs htruthy hni'
      · simp only [hv]
        cases ht : v.truthy with
        | false =>
          simp only [ht, Bool.false_eq_true, if_false]
          exact ih acc f hffs htruthy hni'
        | true =>
          simp only [ht, if_true]
          cases he : decF v.asStr with
          | error err =>
            simp only [he]
            exact ih _ f hffs htruthy hni'
          | ok p =>
            simp only [he]
            exact ih _ f hffs htruthy hni'

theorem decLoop_fallback (decF : String → Except JsError String) (fallback : String → String)
    (orig : Record) :
    ∀ (fields : List String) (acc : Record) (f : String) (v : JsValue),
      f ∈ fields →
      rget orig (f ++ "_encrypted") = some v →
      v.truthy = true →
      (∃ err, decF v.asStr = .error err) →
      fields.Nodup →
      (∀ g ∈ fields, ∀ g' ∈ fields, g ≠ g' ++ "_encrypted") →
      (∀ g ∈ fields, ∀ g' ∈ fields, g ≠ g' → g ++ "_encrypted" ≠ g' ++ "_encrypted") →
      rget (decryptFieldsLoop decF fallback orig fields acc) f =
        some (.vstr (fallback f)) := by
  intro fields
  induction fields with
  | nil =>
    intro acc f v hf
    cases hf
  | cons g fs ih =>
    intro acc f v hf hv htruthy herr hnd hni hinj
    simp only [decryptFieldsLoop]
    have hnd' : fs.Nodup := (List.nodup_cons.mp hnd).2
    have hni' : ∀ a ∈ fs, ∀ b ∈ fs, a ≠ b ++ "_encrypted" :=
      fun a ha b hb => hni a (List.mem_cons_of_mem g ha) b (List.mem_cons_of_mem g hb)
    have hinj' : ∀ a ∈ fs, ∀ b ∈ fs, a ≠ b → a ++ "_encrypted" ≠ b ++ "_encrypted" :=
      fun a ha b hb => hinj a (List.mem_cons_of_mem g ha) b (List.mem_cons_of_mem g hb)
    by_cases hgf : g = f
    · subst hgf
      rcases herr with ⟨err, he⟩
      simp only [hv, htruthy, if_true, he]
      have hnotin : g ∉ fs := (List.nodup_cons.mp hnd).1
      have hcond : ∀ g' ∈ fs, fieldTruthy orig (g' ++ "_encrypted") = false ∨
          (g ≠ g' ∧ g ≠ g' ++ "_encrypted") := by
        intro g' hg'
        right
        refine ⟨fun hh => hnotin (hh ▸ hg'), ?_⟩
        exact hni g (List.mem_cons_self g fs) g' (List.mem_cons_of_mem g hg')
      rw [decLoop_preserve decF fallback orig fs _ g hcond,
        rget_rdel_ne _ _ _ (ne_append_encrypted g), rget_rset_self]
    · have hffs : f ∈ fs := by
        rcases List.mem_cons.mp hf with h1 | h1
        · exact absurd h1.symm hgf
        · exact h1
      rcases hv2 : rget orig (g ++ "_encrypted") with _ | w
      · simp only [hv2]
        exact ih acc f v hffs hv htruthy herr hnd' hni' hinj'
      · simp only [hv2]
        cases ht2 : w.truthy with
        | false =>
          simp only [ht2, Bool.false_eq_true, if_false]
          exact ih acc f v hffs hv htruthy herr hnd' hni' hinj'
        | true =>
          simp only [ht2, if_true]
          cases he2 : decF w.asStr with
          | error err2 =>
            simp only [he2]
            exact ih _ f v hffs hv htruthy herr hnd' hni' hinj'
          | ok p =>
            simp only [he2]
            exact ih _ f v hffs hv htruthy herr hnd' hni' hinj'

theorem decLoop_decrypted (decF : String → Except JsError String) (fallback : String → String)
    (orig : Record) :
    ∀ (fields : List String) (acc : Record) (f : String) (v : JsValue) (p : String),
      f ∈ fields →
      rget orig (f ++ "_encrypted") = some v →
      v.truthy = true →
      decF v.asStr = .ok p →
      fields.Nodup →
      (∀ g ∈ fields, ∀ g' ∈ fields, g ≠ g' ++ "_encrypted") →
      (∀ g ∈ fields, ∀ g' ∈ fields, g ≠ g' → g ++ "_encrypted" ≠ g' ++ "_encrypted") →
      rget (decryptFieldsLoop decF fallback orig fields acc) f = some (.vstr p) := by
  intro fields
  induction fields with
  | nil =>
    intro acc f v p hf
    cases hf
  | cons g fs ih =>
    intro acc f v p hf hv htruthy hdec hnd hni hinj
    simp only [decryptFieldsLoop]
    have hnd' : fs.Nodup := (List.nodup_cons.mp hnd).2
    have hni' : ∀ a ∈ fs, ∀ b ∈ fs, a ≠ b ++ "_encrypted" :=
      fun a ha b hb => hni a (List.mem_cons_of_mem g ha) b (List.mem_cons_of_mem g hb)
    have hinj' : ∀ a ∈ fs, ∀ b ∈ fs, a ≠ b → a ++ "_encrypted" ≠ b ++ "_encrypted" :=
      fun a ha b hb => hinj a (List.mem_cons_of_mem g ha) b (List.mem_cons_of_mem g hb)
    by_cases hgf : g = f
    · subst hgf
      simp only [hv, htruthy, if_true, hdec]
      have hnotin : g ∉ fs := (List.nodup_cons.mp hnd).1
      have hcond : ∀ g' ∈ fs, fieldTruthy orig (g' ++ "_encrypted") = false ∨
          (g ≠ g' ∧ g ≠ g' ++ "_encrypted") := by
        intro g' hg'
        right
        refine ⟨fun hh => hnotin (hh ▸ hg'), ?_⟩
        exact hni g (List.mem_cons_self g fs) g' (List.mem_cons_of_mem g hg')
      rw [decLoop_preserve decF fallback orig fs _ g hcond,
        rget_rdel_ne _ _ _ (ne_append_encrypted g), rget_rset_self]
    · have hffs : f ∈ fs := by
        rcases List.mem_cons.mp hf with h1 | h1
        · exact absurd h1.symm hgf
        · exact h1
      rcases hv2 : rget orig (g ++ "_encrypted") with _ | w
      · simp only [hv2]
        exact ih acc f v p hffs hv htruthy hdec hnd' hni' hinj'
      · simp only [hv2]
        cases ht2 : w.truthy with
        | false =>
          simp only [ht2, Bool.false_eq_true, if_false]
          exact ih acc f v p hffs hv htruthy hdec hnd' hni' hinj'
        | true =>
          simp only [ht2, if_true]
          cases he2 : decF w.asStr with
          | error err2 =>
            simp only [he2]
            exact ih _ f v p hffs hv htruthy hdec hnd' hni' hinj'
          | ok p2 =>
            simp only [he2]
            exact ih _ f v p hffs hv htruthy hdec hnd' hni' hinj'

/-! ## HSM-client helper lemmas -/

theorem authenticate_authCalls (env : NetEnv) (st : DSMState) :
    (authenticate env st).authCalls = 1 := by
  unfold authenticate authenticateWithTrustedCA authenticateWithAPIKey
  cases hb : st.authMethod == "trusted_ca" with
  | true =>
    simp only [hb, if_true]
    cases hc : (!env.certExists || !env.keyExists) with
    | true => simp only [hc, if_true]
    | false =>
      simp only [hc, Bool.false_eq_true, if_false]
      cases env.authNet <;> rfl
  | false =>
    simp only [hb, Bool.false_eq_true, if_false]
    cases st.apiKey with
    | none => rfl
    | some k =>
      cases hd : isDemoKey k with
      | true => simp only [hd, if_true]
      | false =>
        simp only [hd, Bool.false_eq_true, if_false]
        cases env.authNet <;> rfl

theorem ensureAuthenticated_ok_state (env : NetEnv) (st : DSMState) (x : Option String)
    (h : (ensureAuthenticated env st).result = .ok x) :
    (ensureAuthenticated env st).state.accessToken = x := by
  unfold ensureAuthenticated at h ⊢
  cases hc : (!(jsTruthy st.accessToken) ||
      decide ((env.now : Int) ≥ expiryNum st.tokenExpiry - 60000)) with
  | true =>
    simp only [hc, if_true] at h ⊢
    cases hres : (authenticate env st).result with
    | ok t =>
      simp only [hres] at h ⊢
      cases h
      rfl
    | error e =>
      simp only [hres] at h
      cases h
  | false =>
    simp only [hc, Bool.false_eq_true, if_false] at h ⊢
    cases h
    rfl

theorem demo_authenticate (env : NetEnv) (st : DSMState) (hd : DemoSession st) :
    (authenticate env st).netCalls = 0 ∧ (authenticate env st).state.demoMode = true ∧
      (authenticate env st).result = .ok "demo-access-token" ∧
      DemoSession (authenticate env st).state := by
  rcases hd with ⟨hdm, hmeth, k, hk, hdk⟩
  unfold authenticate authenticateWithAPIKey DemoSession
  simp only [hmeth, Bool.false_eq_true, if_false, hk, hdk, if_true]
  refine ⟨?_, ?_, ?_, ?_, ?_, ⟨k, ?_, ?_⟩⟩ <;> first | exact hmeth | trivial

theorem demo_ensure (env : NetEnv) (st : DSMState) (hd : DemoSession st) :
    (ensureAuthenticated env st).netCalls = 0 ∧
      (ensureAuthenticated env st).state.demoMode = true ∧
      ∃ x, (ensureAuthenticated env st).result = .ok x := by
  obtain ⟨hn, hdm, hok, _⟩ := demo_authenticate env st hd
  unfold ensureAuthenticated
  cases hc : (!(jsTruthy st.accessToken) ||
      decide ((env.now : Int) ≥ expiryNum st.tokenExpiry - 60000)) with
  | true =>
    simp only [hc, if_true]
    cases hres : (authenticate env st).result with
    | ok t =>
      simp only [hres]
      refine ⟨?_, ?_, (authenticate env st).state.accessToken, ?_⟩ <;>
        first | exact hn | exact hdm | trivial
    | error e =>
      rw [hres] at hok
      cases hok
  | false =>
    simp only [hc, Bool.false_eq_true, if_false]
    refine ⟨?_, ?_, st.accessToken, ?_⟩ <;> first | exact hd.1 | trivial

/-! ## Claim theorems -/

/-- C9 — Demo-mode detection: on the API-key path, a configured key
that is empty, shorter than 10 characters, or containing one of the
placeholder patterns makes `authenticateWithAPIKey` short-circuit into
demo mode with no network call, the sentinel token, an expiry one hour
(3600000 ms) ahead, and `demoMode = true`. -/
theorem c9_demo_mode_detection (env : NetEnv) (st : DSMState) (k : String)
    (hk : st.apiKey = some k)
    (hdemo : k = "" ∨ k.length < 10 ∨ strIncludes k "fff-ff-ff-ff-ff-f" = true ∨
      strIncludes k "your-" = true) :
    authenticateWithAPIKey env st =
      { result := .ok "demo-access-token"
        state := { st with accessToken := some "demo-access-token"
                           tokenExpiry := some ((env.now : Int) + 3600 * 1000)
                           demoMode := true }
        netCalls := 0, authCalls := 0 } := by
  have hd : isDemoKey k = true := by
    unfold isDemoKey
    rcases hdemo with h | h | h | h
    · subst h
      rfl
    · simp [h]
    · simp [h]
    · simp [h]
  unfold authenticateWithAPIKey
  simp only [hk, hd, if_true]

/-- C9 witness: the `.env` placeholder key `your-api-key-here`
completes authentication into demo mode without any network call. -/
theorem c9_demo_mode_detection_witness :
    authenticateWithAPIKey noNet placeholderService =
      { result := .ok "demo-access-token"
        state := { placeholderService with
                     accessToken := some "demo-access-token"
                     tokenExpiry := some ((noNet.now : Int) + 3600 * 1000)
                     demoMode := true }
        netCalls := 0, authCalls := 0 } :=
  c9_demo_mode_detection noNet placeholderService "your-api-key-here" rfl
    (Or.inr (Or.inr (Or.inr (by decide))))

/-- C10 — Absent-key crash before the demo check: with `authMethod =
api_key` and `FORTANIX_API_KEY` unset, `authenticate()` throws a
`TypeError` from `this.apiKey.includes(...)`, with no network call and
the state (in particular `demoMode`) unchanged — so such a process
gets a thrown error from `authenticate()`, not demo mode. -/
theorem c10_undefined_key_typeerror (env : NetEnv) (st : DSMState)
    (hmethod : st.authMethod = "api_key") (hkey : st.apiKey = none) :
    authenticate env st =
      { result := .error (JsError.typeError
          "Cannot read properties of undefined (reading includes)")
        state := st, netCalls := 0, authCalls := 1 } := by
  unfold authenticate authenticateWithAPIKey
  have hb : (st.authMethod == "trusted_ca") = false := by
    simp [hmethod]
  simp only [hb, Bool.false_eq_true, if_false, hkey]

/-- C10 witness: a service constructed with none of the encryption
environment variables set throws the `TypeError` on authentication. -/
theorem c10_undefined_key_typeerror_witness :
    authenticate noNet unconfiguredService =
      { result := .error (JsError.typeError
          "Cannot read properties of undefined (reading includes)")
        state := unconfiguredService, netCalls := 0, authCalls := 1 } :=
  c10_undefined_key_typeerror noNet unconfiguredService rfl rfl

/-- C1 — Demo-mode round-trip fails on the code: in a demo-mode
session, `encryptData "hi"` produces the base64 demo blob, and
`decryptData` of that blob returns the blob itself (the legacy
pass-through branch — `decryptData` has no demo branch), not `"hi"`.
The code's own `initialize()` self-test (`decrypted === testData`)
therefore throws in demo mode. -/
theorem c1_demo_roundtrip_code_bug :
    demoSession.demoMode = true ∧
    (encryptData noNet demoSession "hi").result = .ok (some "ZW5jcnlwdGVkOmhpOjA=") ∧
    (decryptData noNet demoSession "ZW5jcnlwdGVkOmhpOjA=").result =
      .ok (some "ZW5jcnlwdGVkOmhpOjA=") ∧
    "ZW5jcnlwdGVkOmhpOjA=" ≠ "hi" := by
  refine ⟨rfl, by decide, by decide, by decide⟩

/-- C2 counterexample — in a demo-mode session, `decryptData` applied
to a string that parses as a JSON object with truthy `cipher` and
`iv` performs one network call (the claim asserts zero for every
input).  This includes string-valued envelopes, exponent-form-number
values (`1e1`, `1`) and a nested-object `cipher` value, all of which
`JSON.parse` accepts with truthy properties. -/
theorem c2_demo_isolation_counterexample :
    demoSession.demoMode = true ∧
    parseEnvelope "\x7b\"cipher\":\"QUJD\",\"iv\":\"REVG\"\x7d" =
      some (.jstr "QUJD", .jstr "REVG") ∧
    (decryptData noNet demoSession "\x7b\"cipher\":\"QUJD\",\"iv\":\"REVG\"\x7d").netCalls
      = 1 ∧
    parseEnvelope "\x7b\"cipher\":1e1,\"iv\":1\x7d" = some (.jnum 1, .jnum 1) ∧
    (decryptData noNet demoSession "\x7b\"cipher\":1e1,\"iv\":1\x7d").netCalls = 1 ∧
    parseEnvelope "\x7b\"cipher\":\x7b\"a\":1\x7d,\"iv\":\"x\"\x7d" =
      some (.jobj [("a", .jnum 1)], .jstr "x") ∧
    (decryptData noNet demoSession
      "\x7b\"cipher\":\x7b\"a\":1\x7d,\"iv\":\"x\"\x7d").netCalls = 1 := by
  refine ⟨rfl, rfl, by decide, rfl, by decide, rfl, by decide⟩

/-- C2 amended — in a demo-mode session, `authenticate` and
`encryptData` perform no network call for any input, and `decryptData`
performs none for inputs that do not parse as an envelope; demo mode
also remains set across `authenticate` (sticky).  (As the
counterexample shows, `decryptData` on an envelope-shaped input does
attempt a network call.) -/
theorem c2_demo_isolation_amended (env : NetEnv) (st : DSMState) (hd : DemoSession st) :
    (authenticate env st).netCalls = 0 ∧
    (authenticate env st).state.demoMode = true ∧
    (∀ p, (encryptData env st p).netCalls = 0) ∧
    (∀ s, parseEnvelope s = none → (decryptData env st s).netCalls = 0) := by
  obtain ⟨hn1, hdm1, _, _⟩ := demo_authenticate env st hd
  obtain ⟨hen, hedm, x, hok⟩ := demo_ensure env st hd
  refine ⟨hn1, hdm1, ?_, ?_⟩
  · intro p
    unfold encryptData
    cases hp : (p == "") with
    | true => simp only [hp, if_true]
    | false =>
      simp only [hp, Bool.false_eq_true, if_false, hok, hedm, if_true]
      exact hen
  · intro s hs
    unfold decryptData
    cases hp : (s == "") with
    | true => simp only [hp, if_true]
    | false =>
      simp only [hp, Bool.false_eq_true, if_false, hok, hs]
      exact hen

/-- C2 amended witness: the concrete demo session obtained from the
placeholder key, with a legacy-plaintext decrypt input and an
almost-envelope input whose string value holds a raw control
character (rejected by `JSON.parse`, hence legacy). -/
theorem c2_demo_isolation_amended_witness :
    (authenticate noNet demoSession).netCalls = 0 ∧
    (encryptData noNet demoSession "hi").netCalls = 0 ∧
    (decryptData noNet demoSession "hello").netCalls = 0 ∧
    (decryptData noNet demoSession "\x7b\"cipher\":\"a\nb\",\"iv\":\"x\"\x7d").netCalls
      = 0 := by
  obtain ⟨h1, _, h3, h4⟩ :=
    c2_demo_isolation_amended noNet demoSession
      ⟨rfl, rfl, "your-api-key-here", rfl, rfl⟩
  exact ⟨h1, h3 "hi", h4 "hello" (by rfl),
    h4 "\x7b\"cipher\":\"a\nb\",\"iv\":\"x\"\x7d" (by rfl)⟩

/-- C6 counterexample — `decryptData` calls `ensureAuthenticated()`
before the envelope classification, so on a service whose
authentication throws (here: `FORTANIX_API_KEY` unset and no cached
token), `decryptData "hello"` throws the wrapped decryption error even
though `"hello"` does not parse as an envelope — it does not return
the value unchanged.  Also, the empty string does not parse as an
envelope either, yet `decryptData ""` returns `null`, not `""`. -/
theorem c6_legacy_passthrough_counterexample :
    parseEnvelope "hello" = none ∧
    (decryptData noNet unconfiguredService "hello").result =
      .error (JsError.jsError "Failed to decrypt data with Fortanix DSM") ∧
    parseEnvelope "" = none ∧
    (decryptData noNet demoSession "").result = .ok none := by
  refine ⟨rfl, by decide, rfl, by decide⟩

/-- C6 amended — for every string `s` that does not parse as a
`{cipher, iv}` envelope, when `s` is non-empty (the empty string maps
to `null`) and the preceding `ensureAuthenticated()`
does not throw (live token, demo mode, or a successful re-auth),
`decryptData s` returns `s` unchanged with no error and issues no
crypto network call beyond those of `ensureAuthenticated` itself; if
authentication throws, `decryptData` throws even for legacy input. -/
theorem c6_legacy_passthrough_amended (env : NetEnv) (st : DSMState) (s : String)
    (x : Option String) (hs : (s == "") = false) (hparse : parseEnvelope s = none)
    (hauth : (ensureAuthenticated env st).result = .ok x) :
    (decryptData env st s).result = .ok (some s) ∧
    (decryptData env st s).netCalls = (ensureAuthenticated env st).netCalls := by
  unfold decryptData
  simp only [hs, Bool.false_eq_true, if_false, hauth, hparse]
  refine ⟨?_, ?_⟩ <;> trivial

/-- C6 amended witness: in the concrete demo session, a legacy
plaintext value passes through unchanged with no network call, and so
does an almost-envelope input whose string value carries a raw
control character (`JSON.parse` throws on it, so the code takes the
legacy branch). -/
theorem c6_legacy_passthrough_amended_witness :
    (decryptData noNet demoSession "hello").result = .ok (some "hello") ∧
    (decryptData noNet demoSession "hello").netCalls =
      (ensureAuthenticated noNet demoSession).netCalls ∧
    (decryptData noNet demoSession "\x7b\"cipher\":\"a\nb\",\"iv\":\"x\"\x7d").result =
      .ok (some "\x7b\"cipher\":\"a\nb\",\"iv\":\"x\"\x7d") := by
  obtain ⟨h1, h2⟩ := c6_legacy_passthrough_amended noNet demoSession "hello"
    (some "demo-access-token") (by decide) (by rfl) (by decide)
  obtain ⟨h3, _⟩ := c6_legacy_passthrough_amended noNet demoSession
    "\x7b\"cipher\":\"a\nb\",\"iv\":\"x\"\x7d"
    (some "demo-access-token") (by decide) (by rfl) (by decide)
  exact ⟨h1, h2, h3⟩

/-- C8 — Session reuse: `ensureAuthenticated()` re-authenticates
exactly when no truthy token exists or `Date.now() >= tokenExpiry -
60000`; a call started with no token performs one `authenticate()`
exchange, and a second call made while the resulting token has more
than 60 s of validity performs none, returns the same token, and
leaves the state unchanged — one exchange for the two calls. -/
theorem c8_session_reuse (env1 env2 : NetEnv) (st : DSMState) (tok : String)
    (h1 : (ensureAuthenticated env1 st).result = .ok (some tok))
    (htok : tok ≠ "")
    (h2 : (env2.now : Int) <
      expiryNum (ensureAuthenticated env1 st).state.tokenExpiry - 60000) :
    ensureAuthenticated env2 (ensureAuthenticated env1 st).state =
      { result := .ok (some tok), state := (ensureAuthenticated env1 st).state
        netCalls := 0, authCalls := 0 } ∧
    (jsTruthy st.accessToken = false → (ensureAuthenticated env1 st).authCalls = 1) := by
  have hst : (ensureAuthenticated env1 st).state.accessToken = some tok :=
    ensureAuthenticated_ok_state env1 st (some tok) h1
  constructor
  · have hjst : jsTruthy (ensureAuthenticated env1 st).state.accessToken = true := by
      rw [hst]
      simp [jsTruthy, htok]
    generalize hg : (ensureAuthenticated env1 st).state = st1 at hst hjst h2 ⊢
    have hcond : (!(jsTruthy st1.accessToken) ||
        decide ((env2.now : Int) ≥ expiryNum st1.tokenExpiry - 60000)) = false := by
      rw [hjst]
      simp only [Bool.not_true, Bool.false_or]
      exact decide_eq_false (not_le.mpr h2)
    unfold ensureAuthenticated
    rw [hcond]
    simp only [Bool.false_eq_true, if_false]
    rw [hst]
  · intro hfresh
    unfold ensureAuthenticated
    have hcond : (!(jsTruthy st.accessToken) ||
        decide ((env1.now : Int) ≥ expiryNum st.tokenExpiry - 60000)) = true := by
      rw [hfresh]
      rfl
    simp only [hcond, if_true]
    cases hres : (authenticate env1 st).result with
    | ok t => simp only [hres]; exact authenticate_authCalls env1 st
    | error e => simp only [hres]; exact authenticate_authCalls env1 st

theorem encryptEntity_partition (fields : List String)
    (hni : ∀ g ∈ fields, ∀ g' ∈ fields, g ≠ g' ++ "_encrypted")
    (encF : String → Except JsError String) (data out : Record)
    (h : encryptFieldsLoop encF data fields data = .ok out) :
    (∀ f ∈ fields,
      (fieldTruthy data f = true →
        rget out f = none ∧ (rget out (f ++ "_encrypted")).isSome = true) ∧
      (fieldTruthy data f = false → rget out f = rget data f)) ∧
    (∀ k, k ∉ fields → (∀ f ∈ fields, k ≠ f ++ "_encrypted") →
      rget out k = rget data k) ∧
    (∀ k, rhas out k = true →
      rhas data k = true ∨ ∃ f ∈ fields, k = f ++ "_encrypted") := by
  refine ⟨?_, ?_, ?_⟩
  · intro f hf
    constructor
    · intro htr
      constructor
      · exact encLoop_plainRemoved encF data fields data out f hf htr
          (fun g hg => hni f hf g hg) h
      · refine encLoop_envelopePresent encF data fields data out f hf htr ?_ h
        intro g hg
        exact Ne.symm (hni g hg f hf)
    · intro hfalse
      refine encLoop_preserve encF data fields data out f ?_ h
      intro g hg
      by_cases hgf : g = f
      · subst hgf
        exact Or.inl hfalse
      · exact Or.inr ⟨Ne.symm hgf, hni f hf g hg⟩
  · intro k hnot hkenc
    refine encLoop_preserve encF data fields data out k ?_ h
    intro g hg
    exact Or.inr ⟨fun hkg => hnot (hkg ▸ hg), hkenc g hg⟩
  · intro k hk
    exact encLoop_noNewKeys encF data fields data out k h hk

theorem decryptEntity_fallback (fields : List String) (fallback : String → String)
    (hnd : fields.Nodup)
    (hni : ∀ g ∈ fields, ∀ g' ∈ fields, g ≠ g' ++ "_encrypted")
    (hinj : ∀ g ∈ fields, ∀ g' ∈ fields, g ≠ g' → g ++ "_encrypted" ≠ g' ++ "_encrypted")
    (decF : String → Except JsError String) (data : Record) (f : String) (v : JsValue)
    (hf : f ∈ fields) (hv : rget data (f ++ "_encrypted") = some v)
    (ht : v.truthy = true) (herr : ∃ err, decF v.asStr = .error err) :
    rget (decryptFieldsLoop decF fallback data fields data) f = some (.vstr (fallback f)) ∧
    rget (decryptFieldsLoop decF fallback data fields data) (f ++ "_encrypted") = none := by
  constructor
  · exact decLoop_fallback decF fallback data fields data f v hf hv ht herr hnd hni hinj
  · refine decLoop_envRemoved decF fallback data fields data f hf ?_ hni
    simp only [fieldTruthy, hv]
    exact ht

theorem decryptEntity_envKeys (fields : List String) (fallback : String → String)
    (hni : ∀ g ∈ fields, ∀ g' ∈ fields, g ≠ g' ++ "_encrypted")
    (hinj : ∀ g ∈ fields, ∀ g' ∈ fields, g ≠ g' → g ++ "_encrypted" ≠ g' ++ "_encrypted")
    (decF : String → Except JsError String) (data : Record) :
    (∀ f v, f ∈ fields → rget data (f ++ "_encrypted") = some v → v.truthy = true →
      rget (decryptFieldsLoop decF fallback data fields data) (f ++ "_encrypted") = none) ∧
    (∀ f, f ∈ fields → fieldTruthy data (f ++ "_encrypted") = false →
      rget (decryptFieldsLoop decF fallback data fields data) (f ++ "_encrypted") =
        rget data (f ++ "_encrypted")) := by
  constructor
  · intro f v hf hv ht
    refine decLoop_envRemoved decF fallback data fields data f hf ?_ hni
    simp only [fieldTruthy, hv]
    exact ht
  · intro f hf hfalse
    refine decLoop_preserve decF fallback data fields data (f ++ "_encrypted") ?_
    intro g hg
    by_cases hgf : g = f
    · subst hgf
      exact Or.inl hfalse
    · refine Or.inr ⟨Ne.symm (hni g hg f hf), hinj f hf g hg (Ne.symm hgf)⟩

/-- C3 counterexample — an entity whose sensitive field `firstName`
holds the empty string keeps the plaintext key `firstName` in
`encryptCitizenData`'s output (the `if (citizenData[field])` guard
skips falsy values without deleting them), so the output does contain
a sensitive field's original plaintext key. -/
theorem c3_field_partition_counterexample :
    encryptCitizenData okEncF [("firstName", JsValue.vstr "")] =
      .ok [("firstName", JsValue.vstr "")] ∧
    rget [("firstName", JsValue.vstr "")] "firstName" = some (JsValue.vstr "") := by
  refine ⟨by decide, rfl⟩

/-- C3 amended — for both entity kinds: every sensitive field with a
truthy value is replaced (plaintext key removed, `{name}_encrypted`
present); a sensitive field with a falsy value (empty string, null,
absent) is carried over unchanged — in particular an empty-string
sensitive field keeps its plaintext key; every non-sensitive field
(the public fields) passes through with its value unchanged; and
every output key is either a key of the input or some
`{name}_encrypted`. -/
theorem c3_field_partition_amended :
    (∀ (encF : String → Except JsError String) (data out : Record),
      encryptCitizenData encF data = .ok out →
      (∀ f ∈ citizensSensitiveFields,
        (fieldTruthy data f = true →
          rget out f = none ∧ (rget out (f ++ "_encrypted")).isSome = true) ∧
        (fieldTruthy data f = false → rget out f = rget data f)) ∧
      (∀ k, k ∉ citizensSensitiveFields →
        (∀ f ∈ citizensSensitiveFields, k ≠ f ++ "_encrypted") →
        rget out k = rget data k) ∧
      (∀ k, rhas out k = true →
        rhas data k = true ∨ ∃ f ∈ citizensSensitiveFields, k = f ++ "_encrypted")) ∧
    (∀ (encF : String → Except JsError String) (data out : Record),
      encryptServiceRequestData encF data = .ok out →
      (∀ f ∈ serviceRequestsSensitiveFields,
        (fieldTruthy data f = true →
          rget out f = none ∧ (rget out (f ++ "_encrypted")).isSome = true) ∧
        (fieldTruthy data f = false → rget out f = rget data f)) ∧
      (∀ k, k ∉ serviceRequestsSensitiveFields →
        (∀ f ∈ serviceRequestsSensitiveFields, k ≠ f ++ "_encrypted") →
        rget out k = rget data k) ∧
      (∀ k, rhas out k = true →
        rhas data k = true ∨ ∃ f ∈ serviceRequestsSensitiveFields, k = f ++ "_encrypted")) := by
  constructor
  · intro encF data out h
    exact encryptEntity_partition citizensSensitiveFields (by decide) encF data out h
  · intro encF data out h
    exact encryptEntity_partition serviceRequestsSensitiveFields (by decide) encF data out h

/-- C3 amended witness: a citizen with truthy `firstName` and public
`city`, encrypted with an always-succeeding HSM stub; `firstName` is
replaced by its envelope and `city` passes through unchanged. -/
theorem c3_field_partition_amended_witness :
    rget [("city", JsValue.vstr "Springfield"),
          ("firstName_encrypted", JsValue.vstr "enc:John")] "firstName" = none ∧
    (rget [("city", JsValue.vstr "Springfield"),
           ("firstName_encrypted", JsValue.vstr "enc:John")]
       ("firstName" ++ "_encrypted")).isSome = true ∧
    rget [("city", JsValue.vstr "Springfield"),
          ("firstName_encrypted", JsValue.vstr "enc:John")] "city" =
      rget [("firstName", JsValue.vstr "John"), ("city", JsValue.vstr "Springfield")]
        "city" := by
  obtain ⟨hfields, hpub, _⟩ := c3_field_partition_amended.1 okEncF
      [("firstName", JsValue.vstr "John"), ("city", JsValue.vstr "Springfield")]
      [("city", JsValue.vstr "Springfield"), ("firstName_encrypted", JsValue.vstr "enc:John")]
      (by decide)
  have h := hfields "firstName" (by decide)
  exact ⟨(h.1 (by decide)).1, (h.1 (by decide)).2, hpub "city" (by decide) (by decide)⟩

/-- C4 — Read totality: the decrypt codec is a total function (each
per-field decrypt is wrapped in its own try/catch), and for every
input record with a truthy `{field}_encrypted` value on which the HSM
decrypt call throws — including when authentication itself fails, as
`decryptData` then throws its wrapped error — the output carries the
documented field-specific fallback label under `field` and no
`{field}_encrypted` key. -/
theorem c4_read_totality :
    (∀ (decF : String → Except JsError String) (data : Record) (f : String) (v : JsValue),
      f ∈ citizensSensitiveFields →
      rget data (f ++ "_encrypted") = some v → v.truthy = true →
      (∃ err, decF v.asStr = .error err) →
      rget (decryptCitizenData decF data) f = some (.vstr (citizenFallback f)) ∧
      rget (decryptCitizenData decF data) (f ++ "_encrypted") = none) ∧
    (∀ (decF : String → Except JsError String) (data : Record) (f : String) (v : JsValue),
      f ∈ serviceRequestsSensitiveFields →
      rget data (f ++ "_encrypted") = some v → v.truthy = true →
      (∃ err, decF v.asStr = .error err) →
      rget (decryptServiceRequestData decF data) f =
        some (.vstr (serviceRequestFallback f)) ∧
      rget (decryptServiceRequestData decF data) (f ++ "_encrypted") = none) := by
  constructor
  · intro decF data f v hf hv ht herr
    exact decryptEntity_fallback citizensSensitiveFields citizenFallback
      (by decide) (by decide) (by decide) decF data f v hf hv ht herr
  · intro decF data f v hf hv ht herr
    exact decryptEntity_fallback serviceRequestsSensitiveFields serviceRequestFallback
      (by decide) (by decide) (by decide) decF data f v hf hv ht herr

/-- C4 witness: total HSM unavailability (every decrypt call throws)
on stored envelopes; `firstName` falls back to `[Encrypted]`, `notes`
to `[Encrypted Notes]`, and the `_encrypted` keys are gone. -/
theorem c4_read_totality_witness :
    rget (decryptCitizenData failDecF [("firstName_encrypted", JsValue.vstr "XYZ")])
      "firstName" = some (.vstr "[Encrypted]") ∧
    rget (decryptCitizenData failDecF [("firstName_encrypted", JsValue.vstr "XYZ")])
      ("firstName" ++ "_encrypted") = none ∧
    rget (decryptServiceRequestData failDecF [("notes_encrypted", JsValue.vstr "XYZ")])
      "notes" = some (.vstr "[Encrypted Notes]") := by
  obtain ⟨h1, h2⟩ := c4_read_totality.1 failDecF
    [("firstName_encrypted", JsValue.vstr "XYZ")] "firstName" (JsValue.vstr "XYZ")
    (by decide) (by decide) (by decide)
    ⟨.jsError "Failed to decrypt data with Fortanix DSM", rfl⟩
  obtain ⟨h3, _⟩ := c4_read_totality.2 failDecF
    [("notes_encrypted", JsValue.vstr "XYZ")] "notes" (JsValue.vstr "XYZ")
    (by decide) (by decide) (by decide)
    ⟨.jsError "Failed to decrypt data with Fortanix DSM", rfl⟩
  exact ⟨h1, h2, h3⟩

/-- C5 counterexample — a stored `firstName_encrypted` holding the
empty string is left in place by `decryptCitizenData` (the truthiness
guard skips it without deleting), so the output does contain a
`{field}_encrypted` key. -/
theorem c5_envelope_removal_counterexample :
    decryptCitizenData failDecF [("firstName_encrypted", JsValue.vstr "")] =
      [("firstName_encrypted", JsValue.vstr "")] ∧
    rget [("firstName_encrypted", JsValue.vstr "")] ("firstName" ++ "_encrypted") =
      some (JsValue.vstr "") := by
  refine ⟨by decide, by decide⟩

/-- C5 amended — for both entity kinds: a `{field}_encrypted` key with
a truthy value is always removed from the output, whatever the decrypt
outcome; but a `{field}_encrypted` key holding a falsy value (null or
the empty string) is carried over unchanged. -/
theorem c5_envelope_key_removal_amended :
    (∀ (decF : String → Except JsError String) (data : Record) (f : String) (v : JsValue),
      f ∈ citizensSensitiveFields →
      rget data (f ++ "_encrypted") = some v → v.truthy = true →
      rget (decryptCitizenData decF data) (f ++ "_encrypted") = none) ∧
    (∀ (decF : String → Except JsError String) (data : Record) (f : String),
      f ∈ citizensSensitiveFields →
      fieldTruthy data (f ++ "_encrypted") = false →
      rget (decryptCitizenData decF data) (f ++ "_encrypted") =
        rget data (f ++ "_encrypted")) ∧
    (∀ (decF : String → Except JsError String) (data : Record) (f : String) (v : JsValue),
      f ∈ serviceRequestsSensitiveFields →
      rget data (f ++ "_encrypted") = some v → v.truthy = true →
      rget (decryptServiceRequestData decF data) (f ++ "_encrypted") = none) ∧
    (∀ (decF : String → Except JsError String) (data : Record) (f : String),
      f ∈ serviceRequestsSensitiveFields →
      fieldTruthy data (f ++ "_encrypted") = false →
      rget (decryptServiceRequestData decF data) (f ++ "_encrypted") =
        rget data (f ++ "_encrypted")) := by
  refine ⟨?_, ?_, ?_, ?_⟩
  · intro decF data f v hf hv ht
    exact (decryptEntity_envKeys citizensSensitiveFields citizenFallback
      (by decide) (by decide) decF data).1 f v hf hv ht
  · intro decF data f hf hfalse
    exact (decryptEntity_envKeys citizensSensitiveFields citizenFallback
      (by decide) (by decide) decF data).2 f hf hfalse
  · intro decF data f v hf hv ht
    exact (decryptEntity_envKeys serviceRequestsSensitiveFields serviceRequestFallback
      (by decide) (by decide) decF data).1 f v hf hv ht
  · intro decF data f hf hfalse
    exact (decryptEntity_envKeys serviceRequestsSensitiveFields serviceRequestFallback
      (by decide) (by decide) decF data).2 f hf hfalse

/-- C5 amended witness: a truthy envelope is removed even though
decryption throws; an empty-string envelope value is retained. -/
theorem c5_envelope_key_removal_amended_witness :
    rget (decryptCitizenData failDecF [("firstName_encrypted", JsValue.vstr "XYZ")])
      ("firstName" ++ "_encrypted") = none ∧
    rget (decryptCitizenData failDecF [("firstName_encrypted", JsValue.vstr "")])
      ("firstName" ++ "_encrypted") =
      rget [("firstName_encrypted", JsValue.vstr "")] ("firstName" ++ "_encrypted") := by
  refine ⟨?_, ?_⟩
  · exact c5_envelope_key_removal_amended.1 failDecF
      [("firstName_encrypted", JsValue.vstr "XYZ")] "firstName" (JsValue.vstr "XYZ")
      (by decide) (by decide) (by decide)
  · exact c5_envelope_key_removal_amended.2.1 failDecF
      [("firstName_encrypted", JsValue.vstr "")] "firstName" (by decide) (by decide)

/-- C7 — Write atomicity: if the HSM encrypt call throws on the value
of any truthy sensitive field of the entity, the whole
`encryptCitizenData` / `encryptServiceRequestData` call throws, the
error propagates out of `create`, and no row is inserted — the
resulting database state is never produced. -/
theorem c7_write_atomicity :
    (∀ (encF : String → Except JsError String) (db : List Record) (data : Record),
      (∃ f ∈ citizensSensitiveFields, ∃ v, rget data f = some v ∧ v.truthy = true ∧
        ∃ err, encF v.asStr = .error err) →
      ∀ db', citizenCreate encF db data ≠ .ok db') ∧
    (∀ (encF : String → Except JsError String) (db : List Record) (data : Record),
      (∃ f ∈ serviceRequestsSensitiveFields, ∃ v, rget data f = some v ∧ v.truthy = true ∧
        ∃ err, encF v.asStr = .error err) →
      ∀ db', serviceRequestCreate encF db data ≠ .ok db') := by
  constructor
  · intro encF db data hw db' h
    unfold citizenCreate at h
    cases henc : encryptCitizenData encF data with
    | error e =>
      simp only [henc] at h
      cases h
    | ok out => exact encLoop_fail encF data citizensSensitiveFields data hw out henc
  · intro encF db data hw db' h
    unfold serviceRequestCreate at h
    cases henc : encryptServiceRequestData encF data with
    | error e =>
      simp only [henc] at h
      cases h
    | ok out => exact encLoop_fail encF data serviceRequestsSensitiveFields data hw out henc

/-- C7 witness: with the HSM throwing on every encrypt call, creating
a citizen with a truthy `firstName` (or a request with truthy `notes`)
never yields a database state. -/
theorem c7_write_atomicity_witness :
    citizenCreate failEncF [] [("firstName", JsValue.vstr "John")] ≠ .ok [] ∧
    serviceRequestCreate failEncF [] [("notes", JsValue.vstr "N")] ≠ .ok [] := by
  constructor
  · exact c7_write_atomicity.1 failEncF [] [("firstName", JsValue.vstr "John")]
      ⟨"firstName", by decide, JsValue.vstr "John", rfl, rfl,
       ⟨.jsError "Failed to encrypt data with Fortanix DSM", rfl⟩⟩ []
  · exact c7_write_atomicity.2 failEncF [] [("notes", JsValue.vstr "N")]
      ⟨"notes", by decide, JsValue.vstr "N", rfl, rfl,
       ⟨.jsError "Failed to encrypt data with Fortanix DSM", rfl⟩⟩ []

/-- C8 witness: a concrete successful authentication with a 600 s
token, followed by a second `ensureAuthenticated` 100 s later. -/
theorem c8_session_reuse_witness :
    ensureAuthenticated { liveAuthEnv with now := 100000 }
        (ensureAuthenticated liveAuthEnv realKeyService).state =
      { result := .ok (some "tok123")
        state := (ensureAuthenticated liveAuthEnv realKeyService).state
        netCalls := 0, authCalls := 0 } ∧
    (jsTruthy realKeyService.accessToken = false →
      (ensureAuthenticated liveAuthEnv realKeyService).authCalls = 1) :=
  c8_session_reuse liveAuthEnv { liveAuthEnv with now := 100000 } realKeyService "tok123"
    (by decide) (by decide) (by decide)

end CitizenServices
